import Mathlib

/-!
Verification development for the libconutils surface/compositing core.

The definitions below are a shallow embedding of the C++ sources:
  * geometry (`Point`, `Rect`) from src/geometry.cpp and include/conutils.h,
  * the cell model (`Cell`, mirroring `conutils::Char`; renamed because `Char`
    is taken by Lean's core library) from include/conutils.h,
  * the `Surface` operations (invalidate, fill, clear, blend, move, moveZ,
    show, hide, resize, addLayer, removeLayer, moveLayer, render) from
    src/surface.cpp (shipped as unnamed/part_001).

Machine integers: the C++ code stores coordinates as `ssize_t` and sizes as
`size_t`.  All the operations modelled here stay far from the 2^63 boundary,
so coordinates are embedded as unbounded `Int` and buffer indices as `Nat`.
Character buffers (`Char *mData`) are embedded as total functions
`Nat → Cell`; a loop of the form `for p in rect: data[offset(p)] = v` becomes
the pointwise function `fun i => if point_for i ∈ rect then v else old i`,
which agrees with the loop because `offset`/`point_for` is a bijection
between in-bounds indices and points of the (valid) bounds rectangle.
`Surface::fill` and `Surface::blend` in surface.cpp call `mBounds.offset(p)`;
the header only declares `Rect::index_for`, the row-major linear index of a
point, which is the meaning used here.
-/

namespace Conutils

/-- 2-D point with integer coordinates (`conutils::Point`). -/
structure Point where
  x : Int
  y : Int
deriving DecidableEq, Repr

/-- Rectangle `[top, bottom)` in both axes (`conutils::Rect`). -/
structure Rect where
  top : Point
  bottom : Point
deriving DecidableEq, Repr

/-- The default-constructed `Rect()`: both corners at the origin (invalid). -/
def Rect.zero : Rect := ⟨⟨0, 0⟩, ⟨0, 0⟩⟩

/-- `Rect::valid()`: `bottom.x > top.x && bottom.y > top.y`. -/
def Rect.valid (r : Rect) : Bool :=
  r.bottom.x > r.top.x && r.bottom.y > r.top.y

/-- `Rect::width()` as a signed quantity (`bottom.x - top.x`). -/
def Rect.widthI (r : Rect) : Int := r.bottom.x - r.top.x

/-- `Rect::height()` as a signed quantity (`bottom.y - top.y`). -/
def Rect.heightI (r : Rect) : Int := r.bottom.y - r.top.y

/-- `Rect::size()` as a natural number (area of a valid rect, else 0/garbage-free). -/
def Rect.sizeN (r : Rect) : Nat := r.widthI.toNat * r.heightI.toNat

/-- `Rect::intersect`: componentwise max of tops, min of bottoms. -/
def Rect.intersect (r1 r2 : Rect) : Rect :=
  ⟨⟨max r1.top.x r2.top.x, max r1.top.y r2.top.y⟩,
   ⟨min r1.bottom.x r2.bottom.x, min r1.bottom.y r2.bottom.y⟩⟩

/-- `Rect::boundingRect`: componentwise min of tops, max of bottoms. -/
def Rect.boundingRect (r1 r2 : Rect) : Rect :=
  ⟨⟨min r1.top.x r2.top.x, min r1.top.y r2.top.y⟩,
   ⟨max r1.bottom.x r2.bottom.x, max r1.bottom.y r2.bottom.y⟩⟩

/-- `Rect::move(pos)`: translate so that `top = pos`, preserving width/height. -/
def Rect.move (r : Rect) (pos : Point) : Rect :=
  ⟨pos, ⟨pos.x + r.widthI, pos.y + r.heightI⟩⟩

/-- Translation of a rect by a vector (the inline `+= pos` arithmetic used on
all four coordinates inside `Surface::render`). -/
def Rect.translate (r : Rect) (p : Point) : Rect :=
  ⟨⟨r.top.x + p.x, r.top.y + p.y⟩, ⟨r.bottom.x + p.x, r.bottom.y + p.y⟩⟩

/-- `Rect::index_for(point)`: row-major linear coordinate of a point
relative to the rect's top-left. -/
def Rect.index_for (r : Rect) (p : Point) : Nat :=
  ((p.y - r.top.y) * r.widthI + (p.x - r.top.x)).toNat

/-- `Rect::point_for(index)`: inverse of `index_for`.  The C++ divides by the
unsigned `width()`; for the valid rects the library uses this is the same as
dividing by `widthI.toNat`. -/
def Rect.point_for (r : Rect) (i : Nat) : Point :=
  ⟨r.top.x + (i % r.widthI.toNat : Nat), r.top.y + (i / r.widthI.toNat : Nat)⟩

/-- Membership of the cell `(x, y)` in the half-open extent of a rect. -/
def Rect.memB (r : Rect) (x y : Int) : Bool :=
  r.top.x ≤ x && x < r.bottom.x && r.top.y ≤ y && y < r.bottom.y

/-- Geometric (pointwise) containment of one rect in another. -/
def Rect.subsetR (r1 r2 : Rect) : Prop :=
  ∀ x y : Int, r1.memB x y = true → r2.memB x y = true

/-- `conutils::Char`: glyph value, foreground, background, attribute mask.
Named `Cell` (the spec's word) because `Char` is taken in Lean. -/
structure Cell where
  val : Nat
  fg : Nat
  bg : Nat
  attr : Nat
deriving DecidableEq, Repr

/-- The attribute bit `Char::transparent = 0x80`. -/
def Cell.transparent (c : Cell) : Bool := c.attr &&& 128 != 0

/-- The default `Char(' ')`: space, white on black, no attributes. -/
def Cell.blank : Cell := ⟨32, 7, 0, 0⟩

/-- The per-surface state of `conutils::Surface` that the compositing
operations read and write: `mBounds`, `mDirty`, `mPos`, `mVisible`, `mData`.
The child map and parent pointer are modelled separately (as tree structure
or explicit arguments) where an operation needs them. -/
structure SurfaceData where
  bounds : Rect
  dirty : Rect
  pos : Point
  visible : Bool
  buf : Nat → Cell

/-- `Surface::bounds()`: the unclipped bounds in the parent's context,
`Rect(mBounds).move(mPos)`. -/
def SurfaceData.footprint (s : SurfaceData) : Rect := s.bounds.move s.pos

/-- `Surface::invalidate(const Rect&)` as a pure function of
`(mBounds, mDirty, argument)`: accumulate by bounding union, clipping the
new region to the surface's own bounds. -/
def invalidateRect (bounds dirty r : Rect) : Rect :=
  if dirty.valid then Rect.boundingRect dirty (Rect.intersect bounds r)
  else Rect.intersect bounds r

/-- `Surface::invalidate()` (no arguments): the dirty region becomes the
whole bounds. -/
def invalidateFull (s : SurfaceData) : SurfaceData := { s with dirty := s.bounds }

/-- The rectangle that `Surface::invalidate(start, end)` derives from a
half-open linear buffer range: the tight rect when the range stays on one
row, the whole lines otherwise. -/
def rangeRect (bounds : Rect) (start stop : Nat) : Rect :=
  let sp := bounds.point_for start
  let ep := bounds.point_for (stop - 1)
  if sp.y == ep.y then ⟨⟨sp.x, sp.y⟩, ⟨ep.x + 1, ep.y + 1⟩⟩
  else ⟨⟨0, sp.y⟩, ⟨bounds.widthI, ep.y + 1⟩⟩

/-- `Surface::invalidate(start, end)`: convert the half-open linear range to
a rect, then accumulate it like `invalidate(Rect)`. -/
def invalidateSE (bounds dirty : Rect) (start stop : Nat) : Rect :=
  invalidateRect bounds dirty (rangeRect bounds start stop)

/-- `Surface::fill(pattern, crop)`: returns the C error code and the updated
surface.  With a valid crop, only the part of the crop inside the bounds is
written (error if that intersection is empty); with an invalid crop the whole
buffer `[0, size)` is written.  The written region is then invalidated. -/
def fillF (s : SurfaceData) (pattern : Cell) (crop : Rect) : Int × SurfaceData :=
  if crop.valid then
    let dirty := Rect.intersect s.bounds crop
    if dirty.valid then
      (0, { s with
              buf := fun i =>
                if dirty.memB (s.bounds.point_for i).x (s.bounds.point_for i).y
                then pattern else s.buf i,
              dirty := invalidateRect s.bounds s.dirty dirty })
    else (-22, s)
  else
    (0, { s with
            buf := fun i => if i < s.bounds.sizeN then pattern else s.buf i,
            dirty := invalidateRect s.bounds s.dirty s.bounds })

/-- `Surface::clear(crop)` = `fill(Char(' '), crop)`. -/
def clearF (s : SurfaceData) (crop : Rect) : Int × SurfaceData :=
  fillF s Cell.blank crop

/-- `Surface::blend(other, src_crop, pos)`: clip `src_crop` to the source's
bounds, place it at `pos` and clip to this surface's bounds; fail if either
crop is empty; otherwise copy every non-transparent source cell and
invalidate the destination crop. -/
def blendS (s other : SurfaceData) (src_crop : Rect) (pos : Point) : Int × SurfaceData :=
  let s_crop := Rect.intersect other.bounds src_crop
  let d_crop := Rect.intersect s.bounds (Rect.move s_crop pos)
  if s_crop.valid && d_crop.valid then
    (0, { s with
            buf := fun i =>
              let p := s.bounds.point_for i
              if d_crop.memB p.x p.y then
                let sp : Point := ⟨s_crop.top.x + (p.x - d_crop.top.x),
                                   s_crop.top.y + (p.y - d_crop.top.y)⟩
                let sc := other.buf (other.bounds.index_for sp)
                if sc.transparent then s.buf i else sc
              else s.buf i,
            dirty := invalidateRect s.bounds s.dirty d_crop })
  else (-22, s)

/-- `Surface::resize(width, height)` (allocation assumed to succeed): if
attached, first invalidate the old footprint in the parent; then install the
new bounds, a fresh blank buffer (`new Char[w*h]` default-constructs blanks
and `clear()` rewrites them), and accumulate the new full bounds into the
dirty region — note the C++ never resets the previous `mDirty`. -/
def resizeF (s : SurfaceData) (parentOpt : Option SurfaceData) (w h : Nat) :
    Int × SurfaceData × Option SurfaceData :=
  let parent' := parentOpt.map fun p =>
    { p with dirty := invalidateRect p.bounds p.dirty s.footprint }
  let b : Rect := ⟨⟨0, 0⟩, ⟨(w : Int), (h : Int)⟩⟩
  (0, { s with bounds := b,
               buf := fun _ => Cell.blank,
               dirty := invalidateRect b s.dirty b },
      parent')

/-- `Surface::move(pos)`: if attached, invalidate this whole surface and its
old footprint in the parent; then update the position. -/
def moveF (s : SurfaceData) (parentOpt : Option SurfaceData) (pos : Point) :
    Int × SurfaceData × Option SurfaceData :=
  match parentOpt with
  | some p =>
      let s1 := { s with dirty := s.bounds }
      let p1 := { p with dirty := invalidateRect p.bounds p.dirty s.footprint }
      (0, { s1 with pos := pos }, some p1)
  | none => (0, { s with pos := pos }, none)

/-- `Surface::show()`: invalidate the whole surface, set visible. -/
def showF (s : SurfaceData) : SurfaceData :=
  { s with dirty := s.bounds, visible := true }

/-- `Surface::hide()`: if attached, invalidate the whole surface and its
footprint in the parent; set invisible. -/
def hideF (s : SurfaceData) (parentOpt : Option SurfaceData) :
    SurfaceData × Option SurfaceData :=
  match parentOpt with
  | some p =>
      ({ s with dirty := s.bounds, visible := false },
       some { p with dirty := invalidateRect p.bounds p.dirty s.footprint })
  | none => ({ s with visible := false }, none)

/-! ### The layer map

`std::map<int, std::set<Surface *>> mLayerMap` is embedded as an association
list sorted by Z, each bucket a duplicate-free list of child identifiers
(the C++ set orders same-Z children by address; the claims below never
depend on the order inside one bucket). -/

/-- Insert an id into the bucket for `Z`, creating the bucket if absent
(`mLayerMap[Z].insert(sf)` / `lm_iter->second.insert(sf)`). -/
def insertZ (m : List (Int × List Nat)) (z : Int) (id_ : Nat) : List (Int × List Nat) :=
  match m with
  | [] => [(z, [id_])]
  | (z0, b) :: rest =>
      if z < z0 then (z, [id_]) :: (z0, b) :: rest
      else if z == z0 then (z0, if id_ ∈ b then b else b ++ [id_]) :: rest
      else (z0, b) :: insertZ rest z id_

/-- Whether an id occurs in some bucket (`Surface::containsLayer`). -/
def containsId (m : List (Int × List Nat)) (id_ : Nat) : Bool :=
  m.any fun zb => zb.2.contains id_

/-- Erase an id from its bucket, dropping the bucket if it becomes empty
(the erase logic of `removeLayer`/`moveLayer`). -/
def eraseId (m : List (Int × List Nat)) (id_ : Nat) : List (Int × List Nat) :=
  match m with
  | [] => []
  | (z0, b) :: rest =>
      if id_ ∈ b then
        let b' := b.filter fun x => x ≠ id_
        if b'.isEmpty then rest else (z0, b') :: rest
      else (z0, b) :: eraseId rest id_

/-- The state of a surface playing the parent role in the tree operations:
its bounds, dirty region and layer map. -/
structure LayerTarget where
  bounds : Rect
  dirty : Rect
  layerMap : List (Int × List Nat)
deriving Repr

/-- The state of a surface playing the child role in the tree operations:
identity, bounds, dirty, position, and parent back-reference. -/
structure LayerChild where
  id : Nat
  bounds : Rect
  dirty : Rect
  pos : Point
  parentRef : Option Nat
deriving Repr

/-- `LayerChild` footprint `Rect(mBounds).move(mPos)`. -/
def LayerChild.footprint (c : LayerChild) : Rect := c.bounds.move c.pos

/-- `Surface::addLayer(sf, Z)`: fail with `-EINVAL` (the code's encoding of
the spec's `AlreadyAttached`) if `sf` already has a parent; otherwise insert
into the Z bucket, invalidate the new layer's footprint, and set the parent
back-reference. -/
def addLayerZ (t : LayerTarget) (tid : Nat) (sf : LayerChild) (z : Int) :
    Int × LayerTarget × LayerChild :=
  if sf.parentRef.isSome then (-22, t, sf)
  else
    (0, { t with layerMap := insertZ t.layerMap z sf.id,
                 dirty := invalidateRect t.bounds t.dirty sf.footprint },
        { sf with parentRef := some tid })

/-- `Surface::addLayer(sf, pos, Z)`: same, but positions `sf` at `pos`
before computing the invalidated footprint. -/
def addLayerPZ (t : LayerTarget) (tid : Nat) (sf : LayerChild) (pos : Point) (z : Int) :
    Int × LayerTarget × LayerChild :=
  if sf.parentRef.isSome then (-22, t, sf)
  else
    let sf1 := { sf with pos := pos }
    (0, { t with layerMap := insertZ t.layerMap z sf1.id,
                 dirty := invalidateRect t.bounds t.dirty sf1.footprint },
        { sf1 with parentRef := some tid })

/-- `Surface::removeLayer(sf)`: fail unless `sf.parent == this` and `sf` is
found in some bucket; on success erase it, invalidate the vacated footprint
and clear the back-reference. -/
def removeLayerF (t : LayerTarget) (tid : Nat) (sf : LayerChild) :
    Int × LayerTarget × LayerChild :=
  if sf.parentRef ≠ some tid then (-22, t, sf)
  else if containsId t.layerMap sf.id then
    (0, { t with layerMap := eraseId t.layerMap sf.id,
                 dirty := invalidateRect t.bounds t.dirty sf.footprint },
        { sf with parentRef := none })
  else (-22, t, sf)

/-- `Surface::moveLayer(sf, Z)`: fail unless `sf.parent == this` and `sf` is
found; on success move it to the bucket for `Z` and invalidate its
footprint. -/
def moveLayerF (t : LayerTarget) (tid : Nat) (sf : LayerChild) (z : Int) :
    Int × LayerTarget × LayerChild :=
  if sf.parentRef ≠ some tid then (-22, t, sf)
  else if containsId t.layerMap sf.id then
    (0, { t with layerMap := insertZ (eraseId t.layerMap sf.id) z sf.id,
                 dirty := invalidateRect t.bounds t.dirty sf.footprint },
        sf)
  else (-22, t, sf)

/-- `Surface::moveZ(Z)`: `-ENOLINK` when detached; otherwise invalidate this
surface and delegate to the parent's `moveLayer`. -/
def moveZF (sf : LayerChild) (parentOpt : Option (Nat × LayerTarget)) (z : Int) :
    Int × LayerChild × Option LayerTarget :=
  match parentOpt with
  | none => (-67, sf, none)
  | some (tid, t) =>
      let sf1 := { sf with dirty := sf.bounds }
      let r := moveLayerF t tid sf1 z
      (r.1, r.2.2, some r.2.1)

/-- `Surface::move(pos, Z)`: if attached, invalidate this surface and its old
footprint in the parent, let the parent move it to the new Z bucket (which
invalidates the old footprint again), then update the position. -/
def movePZF (sf : LayerChild) (parentOpt : Option (Nat × LayerTarget)) (pos : Point) (z : Int) :
    Int × LayerChild × Option LayerTarget :=
  match parentOpt with
  | none => (0, { sf with pos := pos }, none)
  | some (tid, t) =>
      let sf1 := { sf with dirty := sf.bounds }
      let t1 := { t with dirty := invalidateRect t.bounds t.dirty sf1.footprint }
      let r := moveLayerF t1 tid sf1 z
      (0, { r.2.2 with pos := pos }, some r.2.1)

/-! ### The surface tree and `Surface::render`

A surface tree is a rose tree whose nodes carry `SurfaceData`; the children
list is in the iteration order of `mLayerMap` (ascending Z, address order
inside one bucket).  `render` is invoked on a node located in a tree; the
chain of ancestors is given as a list of `Frame`s (nearest ancestor first),
each holding the ancestor's data and the siblings on either side of the hole.
Hooks record every `renderDone(dirty)` call as `(depth, rect)` where depth
is the number of remaining ancestors above that node (the root has 0). -/

inductive STree where
  | node (data : SurfaceData) (children : List STree)

/-- Root data of a subtree. -/
def STree.data : STree → SurfaceData
  | .node d _ => d

/-- Children of a subtree's root. -/
def STree.children : STree → List STree
  | .node _ cs => cs

/-- `Surface::move(pos)` lifted to a tree node: the operation touches none of
the node's children (`mLayerMap` is not read or written by `move`). -/
def moveT (t : STree) (parentOpt : Option SurfaceData) (pos : Point) :
    Int × STree × Option SurfaceData :=
  let r := moveF t.data parentOpt pos
  (r.1, .node r.2.1 t.children, r.2.2)

/-- One ancestor level of the position of the rendered node in the tree. -/
structure Frame where
  data : SurfaceData
  before : List STree
  after : List STree

/-- Step 1 of `Surface::render`: fold every visible child's valid dirty
region, translated by the child's position, into this surface's dirty
region via `invalidate`. -/
def foldDirty (bounds dirty : Rect) (cs : List STree) : Rect :=
  cs.foldl
    (fun acc c =>
      if c.data.visible && c.data.dirty.valid then
        invalidateRect bounds acc (c.data.dirty.translate c.data.pos)
      else acc)
    dirty

/-- The per-child compositing step of `Surface::render`: for a visible child
with valid bounds, intersect the dirty region with the child's footprint,
translate the crop into child coordinates and blend it in at the crop's
original top. -/
def blendStepS (s : SurfaceData) (c : SurfaceData) : SurfaceData :=
  if c.visible && c.bounds.valid then
    let src0 := Rect.intersect s.dirty (c.bounds.move c.pos)
    let pos := src0.top
    let src := src0.translate ⟨-c.pos.x, -c.pos.y⟩
    (blendS s c src pos).2
  else s

/-- Mark a child consumed after its blend: the loop clears the dirty region
of every visible child with valid bounds (`sf->mDirty = Rect()`). -/
def clearDirtyIf (c : STree) : STree :=
  if c.data.visible && c.data.bounds.valid then
    .node { c.data with dirty := Rect.zero } c.children
  else c

/-- Steps 3–4 of `Surface::render` over the children list: blend every
visible valid-bounds child into this surface and mark it clean. -/
def blendAll (s : SurfaceData) (cs : List STree) : SurfaceData × List STree :=
  match cs with
  | [] => (s, [])
  | c :: rest =>
      let s1 := blendStepS s c.data
      let r := blendAll s1 rest
      (r.1, clearDirtyIf c :: r.2)

/-- A placeholder subtree (only used as the default of a list lookup that is
always in range). -/
def defTree : STree := .node ⟨Rect.zero, Rect.zero, ⟨0, 0⟩, true, fun _ => Cell.blank⟩ []

/-- Steps 2–4 of `Surface::render` once the accumulated dirty region `d1`
has been found valid: install `d1` as the dirty region, clear the dirty crop
when there are children (`if (!mLayerMap.empty()) clear(mDirty)`), then
blend all children. -/
def renderLocal (s : SurfaceData) (cs : List STree) (d1 : Rect) :
    SurfaceData × List STree :=
  let s1 : SurfaceData := { s with dirty := d1 }
  let s2 := if cs.isEmpty then s1 else (clearF s1 d1).2
  blendAll s2 cs

/-- `Surface::render()` on the node `(s, cs)` with ancestor chain `frames`.
Returns the node's new data, its new children, the new ancestor chain and
the list of `renderDone` hook invocations `(depth, dirty)` in call order.

Mirrors surface.cpp: fold children dirt (step 1); return immediately if the
accumulated dirty region is invalid; clear the dirty crop when there are
children; blend every visible valid-bounds child and mark it clean; recurse
into the parent (which observes — and as a side effect clears — this node's
dirty region); then invoke `renderDone` with whatever this node's dirty
region is at that point, and clear it. -/
def render (s : SurfaceData) (cs : List STree) (frames : List Frame) :
    SurfaceData × List STree × List Frame × List (Nat × Rect) :=
  let d1 := foldDirty s.bounds s.dirty cs
  if d1.valid then
    let br := renderLocal s cs d1
    match frames with
    | [] =>
        ({ br.1 with dirty := Rect.zero }, br.2, [], [(0, br.1.dirty)])
    | f :: rest =>
        let selfT : STree := .node br.1 br.2
        let pr := render f.data (f.before ++ selfT :: f.after) rest
        let selfOut := pr.2.1.getD f.before.length defTree
        ({ selfOut.data with dirty := Rect.zero },
         selfOut.children,
         ⟨pr.1, pr.2.1.take f.before.length, pr.2.1.drop (f.before.length + 1)⟩ :: pr.2.2.1,
         pr.2.2.2 ++ [(frames.length, selfOut.data.dirty)])
  else
    ({ s with dirty := d1 }, cs, frames, [])

/-! ## Scenario states and auxiliary definitions used by the claims -/

/-- "Dirty, when valid, inside the bounds" for a single surface expressed on
the pair `(bounds, dirty)`. -/
def wfDR (bounds dirty : Rect) : Prop :=
  dirty.valid = true → Rect.subsetR dirty bounds

/-- One call of one of the three `invalidate` overloads, as data. -/
inductive InvCmd where
  | full : InvCmd
  | rect : Rect → InvCmd
  | range : Nat → Nat → InvCmd

/-- The region an `invalidate` call asks to mark dirty (before clipping to
the surface's bounds): the whole bounds for `invalidate()`, the given rect
for `invalidate(Rect)`, the derived line rect for `invalidate(start, end)`. -/
def invRegion (bounds : Rect) : InvCmd → Rect
  | .full => bounds
  | .rect r => r
  | .range a b => rangeRect bounds a b

/-- Effect of one `invalidate` call on the dirty region. -/
def applyInv (bounds dirty : Rect) : InvCmd → Rect
  | .full => bounds
  | .rect r => invalidateRect bounds dirty r
  | .range a b => invalidateSE bounds dirty a b

/-- Dirty region after a finite sequence of `invalidate` calls. -/
def runInv (bounds dirty : Rect) (cmds : List InvCmd) : Rect :=
  cmds.foldl (applyInv bounds) dirty

/-- The state `Surface(10,10)` followed by `resize(2,2)`: the constructor
leaves the full bounds dirty and `resize` never resets `mDirty`, so the
dirty region `(0,0)-(10,10)` survives while the bounds shrink to
`(0,0)-(2,2)`. -/
def shrunkSurface : SurfaceData :=
  (resizeF ⟨⟨⟨0,0⟩,⟨10,10⟩⟩, ⟨⟨0,0⟩,⟨10,10⟩⟩, ⟨0,0⟩, true, fun _ => Cell.blank⟩
    none 2 2).2.1

/-- A placeholder frame (only used as the default of a list lookup that is
always in range). -/
def defFrame : Frame := ⟨⟨Rect.zero, Rect.zero, ⟨0, 0⟩, true, fun _ => Cell.blank⟩, [], []⟩

/-- Local bounds of the 10×10 root surface. -/
def c2RootB : Rect := ⟨⟨0,0⟩,⟨10,10⟩⟩

/-- The fill `Char('b')` of the child. -/
def c2Cell : Cell := ⟨98,7,0,0⟩

/-- The 2×2 child after `fill(Char('b'))`, positioned at `(2,2)` (its dirty
region is its full bounds, as `fill` leaves it). -/
def c2Child : SurfaceData := ⟨⟨⟨0,0⟩,⟨2,2⟩⟩, ⟨⟨0,0⟩,⟨2,2⟩⟩, ⟨2,2⟩, true, fun _ => c2Cell⟩

/-- The clean 10×10 root with buffer `orig` after `addLayer(child, (2,2), 1)`:
`addLayer` invalidates the child's footprint in the (previously clean)
root. -/
def c2Root (orig : Nat → Cell) : SurfaceData :=
  ⟨c2RootB, invalidateRect c2RootB Rect.zero (Rect.move ⟨⟨0,0⟩,⟨2,2⟩⟩ ⟨2,2⟩), ⟨0,0⟩, true, orig⟩

/-! ## Claim C5: move a child, then render -/

/-- A clean 10×10 parent with buffer `orig`. -/
def c5Parent (orig : Nat → Cell) : SurfaceData := ⟨⟨⟨0,0⟩,⟨10,10⟩⟩, Rect.zero, ⟨0,0⟩, true, orig⟩

/-- A clean 2×2 child with buffer `cbuf`, attached at position `(1,1)`. -/
def c5Child (cbuf : Nat → Cell) : SurfaceData := ⟨⟨⟨0,0⟩,⟨2,2⟩⟩, Rect.zero, ⟨1,1⟩, true, cbuf⟩

/-- `child.move((5,5))`: result code and the updated child and parent. -/
def c5Moved (orig cbuf : Nat → Cell) : Int × SurfaceData × Option SurfaceData :=
  moveF (c5Child cbuf) (some (c5Parent orig)) ⟨5,5⟩

/-- `child.render()` after the move, with the parent as the sole ancestor. -/
def c5Render (orig cbuf : Nat → Cell) :
    SurfaceData × List STree × List Frame × List (Nat × Rect) :=
  render (c5Moved orig cbuf).2.1 []
    [⟨((c5Moved orig cbuf).2.2).getD (c5Parent orig), [], []⟩]

/-- The invariant on one surface: a valid dirty region lies inside the
surface's own local bounds. -/
def wfS (s : SurfaceData) : Prop := wfDR s.bounds s.dirty

/-- The invariant on a surface playing the parent role in tree operations. -/
def wfT (t : LayerTarget) : Prop := wfDR t.bounds t.dirty

/-- The invariant on a surface playing the child role in tree operations. -/
def wfC (c : LayerChild) : Prop := wfDR c.bounds c.dirty

/-- The reachable state refuting C1 as stated: a full-screen child that was
filled (dirty = its whole 10×10 bounds) and then resized to 0×0 while
attached to a clean 10×10 parent.  The child keeps a valid dirty region but
invalid bounds, so every render folds its dirty region in again, composites
and fires `renderDone` — the second render call is not a no-op. -/
def c1BadResize : Int × SurfaceData × Option SurfaceData :=
  resizeF ⟨⟨⟨0,0⟩,⟨10,10⟩⟩, ⟨⟨0,0⟩,⟨10,10⟩⟩, ⟨0,0⟩, true, fun _ => Cell.blank⟩
    (some ⟨⟨⟨0,0⟩,⟨10,10⟩⟩, Rect.zero, ⟨0,0⟩, true, fun _ => Cell.blank⟩) 0 0

/-! ## Basic geometry lemmas -/

theorem Rect.valid_iff (r : Rect) :
    r.valid = true ↔ r.top.x < r.bottom.x ∧ r.top.y < r.bottom.y := by
  simp [Rect.valid]

theorem Rect.memB_iff (r : Rect) (x y : Int) :
    r.memB x y = true ↔
      r.top.x ≤ x ∧ x < r.bottom.x ∧ r.top.y ≤ y ∧ y < r.bottom.y := by
  simp [Rect.memB, and_assoc]

/-- Everything in `intersect b x` lies in `b`. -/
theorem subsetR_intersect_left (b x : Rect) : Rect.subsetR (Rect.intersect b x) b := by
  intro a c h
  simp only [Rect.memB_iff, Rect.intersect] at h ⊢
  omega

/-- The crop `intersect bounds r` is always inside the accumulated dirty
region produced by `invalidate(r)`. -/
theorem subsetR_invalidateRect (b d r : Rect) :
    Rect.subsetR (Rect.intersect b r) (invalidateRect b d r) := by
  intro x y h
  unfold invalidateRect
  split
  · simp only [Rect.memB_iff, Rect.boundingRect, Rect.intersect] at h ⊢
    omega
  · exact h

/-- A region already inside the bounds is inside the dirty region its own
invalidation produces. -/
theorem subsetR_invalidateRect_arg (b d r : Rect) (h : Rect.subsetR r b) :
    Rect.subsetR r (invalidateRect b d r) := by
  intro x y hm
  refine subsetR_invalidateRect b d r x y ?_
  have hb := h x y hm
  simp only [Rect.memB_iff, Rect.intersect] at hm hb ⊢
  omega

/-- `invalidate(r)` never loses previously dirty cells. -/
theorem subsetR_invalidateRect_old (b d r : Rect) :
    Rect.subsetR d (invalidateRect b d r) := by
  intro x y h
  unfold invalidateRect
  split
  · simp only [Rect.memB_iff, Rect.boundingRect] at h ⊢
    omega
  · rename_i hd
    simp only [Rect.memB_iff] at h
    simp only [Rect.valid_iff] at hd
    omega


theorem wfDR_bounds (b : Rect) : wfDR b b := fun _ => fun _ _ h => h

theorem wfDR_zero (b : Rect) : wfDR b Rect.zero := by
  intro h
  simp [Rect.valid_iff, Rect.zero] at h

/-- A valid rect that is pointwise inside another has its corner coordinates
inside it as well. -/
theorem coords_of_subsetR {d b : Rect} (hv : d.valid = true) (h : Rect.subsetR d b) :
    b.top.x ≤ d.top.x ∧ d.bottom.x ≤ b.bottom.x ∧
    b.top.y ≤ d.top.y ∧ d.bottom.y ≤ b.bottom.y := by
  simp only [Rect.valid_iff] at hv
  have h1 := h d.top.x d.top.y
  have h2 := h (d.bottom.x - 1) (d.bottom.y - 1)
  simp only [Rect.memB_iff] at h1 h2
  omega

/-- `invalidate(r)` preserves the dirty-inside-bounds invariant. -/
theorem wfDR_invalidateRect (b d r : Rect) (h : wfDR b d) :
    wfDR b (invalidateRect b d r) := by
  intro hv x y hm
  unfold invalidateRect at hv hm
  by_cases hd : d.valid = true
  · rw [if_pos hd] at hv hm
    obtain ⟨c1, c2, c3, c4⟩ := coords_of_subsetR hd (h hd)
    simp only [Rect.memB_iff, Rect.boundingRect, Rect.intersect] at hm ⊢
    omega
  · rw [if_neg hd] at hv hm
    simp only [Rect.memB_iff, Rect.intersect] at hm ⊢
    omega

/-! ## Claim C8: intersect / boundingRect -/

/-- C8: for all rectangles, `intersect(r1,r2)` is valid precisely when the
two rects share at least one cell of their half-open extents; and
`boundingRect(r1,r2)` contains every cell of either input and is valid as
soon as one of the inputs is valid. -/
theorem rect_intersect_bounding (r1 r2 : Rect) :
    ((Rect.intersect r1 r2).valid = true ↔
       ∃ x y : Int, r1.memB x y = true ∧ r2.memB x y = true) ∧
    (∀ x y : Int, r1.memB x y = true ∨ r2.memB x y = true →
       (Rect.boundingRect r1 r2).memB x y = true) ∧
    (r1.valid = true ∨ r2.valid = true → (Rect.boundingRect r1 r2).valid = true) := by
  refine ⟨⟨fun h => ?_, fun h => ?_⟩, fun x y h => ?_, fun h => ?_⟩
  · refine ⟨max r1.top.x r2.top.x, max r1.top.y r2.top.y, ?_, ?_⟩ <;>
      simp only [Rect.valid_iff, Rect.memB_iff, Rect.intersect] at h ⊢ <;> omega
  · obtain ⟨x, y, hx, hy⟩ := h
    simp only [Rect.valid_iff, Rect.memB_iff, Rect.intersect] at hx hy ⊢
    omega
  · rcases h with h | h <;>
      simp only [Rect.memB_iff, Rect.boundingRect] at h ⊢ <;> omega
  · rcases h with h | h <;>
      simp only [Rect.valid_iff, Rect.boundingRect] at h ⊢ <;> omega

/-- Witness for C8 at concrete rectangles: `(0,0)-(2,2)` and `(1,1)-(3,3)`
overlap, so their intersection is valid; their bounding rect contains the
cell `(2,2)` of the second and is valid. -/
theorem rect_intersect_bounding_witness :
    (Rect.intersect ⟨⟨0,0⟩,⟨2,2⟩⟩ ⟨⟨1,1⟩,⟨3,3⟩⟩).valid = true ∧
    (Rect.boundingRect ⟨⟨0,0⟩,⟨2,2⟩⟩ ⟨⟨1,1⟩,⟨3,3⟩⟩).memB 2 2 = true ∧
    (Rect.boundingRect ⟨⟨0,0⟩,⟨2,2⟩⟩ ⟨⟨1,1⟩,⟨3,3⟩⟩).valid = true :=
  ⟨(rect_intersect_bounding ⟨⟨0,0⟩,⟨2,2⟩⟩ ⟨⟨1,1⟩,⟨3,3⟩⟩).1.mpr
      ⟨1, 1, by decide, by decide⟩,
   (rect_intersect_bounding ⟨⟨0,0⟩,⟨2,2⟩⟩ ⟨⟨1,1⟩,⟨3,3⟩⟩).2.1 2 2 (Or.inr (by decide)),
   (rect_intersect_bounding ⟨⟨0,0⟩,⟨2,2⟩⟩ ⟨⟨1,1⟩,⟨3,3⟩⟩).2.2 (Or.inl (by decide))⟩

/-! ## Claim C10: position-only move -/

/-- C10: `Surface::move(pos)` returns 0 for every surface, attached or not;
on a detached surface it only updates the position: the dirty region, the
buffer, the bounds, the visibility flag and the children are untouched. -/
theorem move_always_succeeds (t : STree) (parentOpt : Option SurfaceData) (pos : Point) :
    (moveT t parentOpt pos).1 = 0 ∧
    moveT t none pos = (0, .node { t.data with pos := pos } t.children, none) := by
  constructor
  · cases parentOpt <;> rfl
  · rfl

/-! ## Claim C7: addLayer on an already attached surface -/

/-- C7: both `addLayer` overloads, applied to a surface that already has a
parent, fail with `-EINVAL` (the code's encoding of `AlreadyAttached`) and
change nothing: the target keeps its layer map and dirty region, and the
child keeps its parent reference, position and Z placement. -/
theorem addLayer_already_attached (t : LayerTarget) (tid j : Nat) (sf : LayerChild)
    (pos : Point) (z : Int) :
    addLayerZ t tid { sf with parentRef := some j } z
      = (-22, t, { sf with parentRef := some j }) ∧
    addLayerPZ t tid { sf with parentRef := some j } pos z
      = (-22, t, { sf with parentRef := some j }) := by
  constructor <;> rfl

/-! ## Claim C6: blending an all-transparent source -/

/-- C6: if every cell of the source carries the `transparent` attribute bit
and `blend` succeeds, the destination buffer is bytewise unchanged at every
index, yet the computed destination crop is still folded into the
destination's dirty region. -/
theorem blend_transparent_noop (s other : SurfaceData) (src_crop : Rect) (pos : Point)
    (htr : ∀ i, (other.buf i).transparent = true)
    (hok : (blendS s other src_crop pos).1 = 0) :
    (∀ i, ((blendS s other src_crop pos).2).buf i = s.buf i) ∧
    Rect.subsetR
      (Rect.intersect s.bounds (Rect.move (Rect.intersect other.bounds src_crop) pos))
      ((blendS s other src_crop pos).2).dirty := by
  cases hc : ((Rect.intersect other.bounds src_crop).valid &&
      (Rect.intersect s.bounds (Rect.move (Rect.intersect other.bounds src_crop) pos)).valid) with
  | false =>
      exfalso
      simp [blendS, hc] at hok
  | true =>
      constructor
      · intro i
        simp only [blendS, hc, if_true]
        split
        · simp [htr]
        · rfl
      · simp only [blendS, hc, if_true]
        exact subsetR_invalidateRect_arg s.bounds s.dirty
          (Rect.intersect s.bounds (Rect.move (Rect.intersect other.bounds src_crop) pos))
          (subsetR_intersect_left _ _)

/-- Witness for C6: a 1×1 fully transparent source blended at the origin of
a 2×2 destination succeeds, leaves the destination buffer unchanged, and
dirties the crop. -/
theorem blend_transparent_noop_witness :
    (∀ i, ((blendS ⟨⟨⟨0,0⟩,⟨2,2⟩⟩, Rect.zero, ⟨0,0⟩, true, fun _ => Cell.blank⟩
                   ⟨⟨⟨0,0⟩,⟨1,1⟩⟩, Rect.zero, ⟨0,0⟩, true, fun _ => ⟨98,7,0,128⟩⟩
                   ⟨⟨0,0⟩,⟨1,1⟩⟩ ⟨0,0⟩).2).buf i = Cell.blank) ∧
    Rect.subsetR
      (Rect.intersect ⟨⟨0,0⟩,⟨2,2⟩⟩
        (Rect.move (Rect.intersect ⟨⟨0,0⟩,⟨1,1⟩⟩ ⟨⟨0,0⟩,⟨1,1⟩⟩) ⟨0,0⟩))
      ((blendS ⟨⟨⟨0,0⟩,⟨2,2⟩⟩, Rect.zero, ⟨0,0⟩, true, fun _ => Cell.blank⟩
               ⟨⟨⟨0,0⟩,⟨1,1⟩⟩, Rect.zero, ⟨0,0⟩, true, fun _ => ⟨98,7,0,128⟩⟩
               ⟨⟨0,0⟩,⟨1,1⟩⟩ ⟨0,0⟩).2).dirty :=
  blend_transparent_noop _ _ _ _
    (fun _ => show Cell.transparent ⟨98,7,0,128⟩ = true by decide) (by decide)

/-! ## Claim C3: monotonicity of invalidate -/


theorem runInv_cons (b d : Rect) (c : InvCmd) (cmds : List InvCmd) :
    runInv b d (c :: cmds) = runInv b (applyInv b d c) cmds := rfl

/-- Each call covers its own region (clipped to the bounds). -/
theorem subsetR_applyInv_region (b d : Rect) (c : InvCmd) :
    Rect.subsetR (Rect.intersect b (invRegion b c)) (applyInv b d c) := by
  cases c with
  | full =>
      intro x y h
      simp only [Rect.memB_iff, Rect.intersect, applyInv] at h ⊢
      omega
  | rect r => exact subsetR_invalidateRect b d r
  | range a bb => exact subsetR_invalidateRect b d (rangeRect b a bb)

/-- Each call keeps every already dirty cell that lies inside the bounds. -/
theorem subsetR_applyInv_mono (b d X : Rect) (c : InvCmd)
    (hXb : X.subsetR b) (hXd : X.subsetR d) : X.subsetR (applyInv b d c) := by
  cases c with
  | full => exact hXb
  | rect r => exact fun x y h => subsetR_invalidateRect_old b d r x y (hXd x y h)
  | range a bb =>
      exact fun x y h => subsetR_invalidateRect_old b d (rangeRect b a bb) x y (hXd x y h)

/-- A region inside the bounds that is already dirty stays dirty along any
run of `invalidate` calls. -/
theorem subsetR_runInv_mono (b X : Rect) (hXb : X.subsetR b) :
    ∀ (cmds : List InvCmd) (d : Rect), X.subsetR d → X.subsetR (runInv b d cmds) := by
  intro cmds
  induction cmds with
  | nil => exact fun d h => h
  | cons a rest ih =>
      intro d hXd
      rw [runInv_cons]
      exact ih (applyInv b d a) (subsetR_applyInv_mono b d X a hXb hXd)

/-- Every `invalidate` call preserves the dirty-inside-bounds invariant. -/
theorem wfDR_applyInv (b d : Rect) (c : InvCmd) (h : wfDR b d) :
    wfDR b (applyInv b d c) := by
  cases c with
  | full => exact wfDR_bounds b
  | rect r => exact wfDR_invalidateRect b d r h
  | range a bb => exact wfDR_invalidateRect b d (rangeRect b a bb) h

theorem wfDR_runInv (b : Rect) :
    ∀ (cmds : List InvCmd) (d : Rect), wfDR b d → wfDR b (runInv b d cmds) := by
  intro cmds
  induction cmds with
  | nil => exact fun d h => h
  | cons a rest ih =>
      intro d h
      rw [runInv_cons]
      exact ih (applyInv b d a) (wfDR_applyInv b d a h)

/-- C3 (amended): provided the surface's dirty region, when valid, lies
inside its bounds (which every operation except a shrinking `resize`
maintains), a sequence of `invalidate` calls is monotonic: the dirty region
after the run contains every invalidated region clipped to the bounds, and
appending one more call of any overload never loses a cell of a valid dirty
region.  (The clipped-regions half in fact needs no hypothesis at all.) -/
theorem invalidate_monotonic (bounds d0 : Rect) (cmds : List InvCmd) (c : InvCmd)
    (hwf : wfDR bounds d0) :
    (∀ c' ∈ cmds,
        Rect.subsetR (Rect.intersect bounds (invRegion bounds c'))
          (runInv bounds d0 cmds)) ∧
    ((runInv bounds d0 cmds).valid = true →
      Rect.subsetR (runInv bounds d0 cmds) (runInv bounds d0 (cmds ++ [c]))) := by
  constructor
  · -- regions accumulate, independently of any invariant
    clear hwf
    induction cmds generalizing d0 with
    | nil => intro c' h; exact absurd h (List.not_mem_nil c')
    | cons a rest ih =>
        intro c' hm
        rw [runInv_cons]
        rcases List.mem_cons.mp hm with rfl | h
        · exact subsetR_runInv_mono bounds _ (subsetR_intersect_left bounds _) rest _
            (subsetR_applyInv_region bounds d0 c')
        · exact ih (applyInv bounds d0 a) c' h
  · intro hv
    have hw := wfDR_runInv bounds cmds d0 hwf
    have he : runInv bounds d0 (cmds ++ [c]) = applyInv bounds (runInv bounds d0 cmds) c := by
      simp [runInv, List.foldl_append]
    rw [he]
    cases c with
    | full => exact hw hv
    | rect r => exact subsetR_invalidateRect_old bounds _ r
    | range a bb => exact subsetR_invalidateRect_old bounds _ (rangeRect bounds a bb)


/-- C3 counterexample: on the reachable post-shrink state, the very next
no-argument `invalidate()` returns the new bounds `(0,0)-(2,2)` and thereby
loses the previously dirty cell `(5,5)` — the dirty rect shrinks piecewise
with no intervening render or clear, contradicting the claim as stated. -/
theorem invalidate_monotonic_counterexample :
    shrunkSurface.dirty.valid = true ∧
    runInv shrunkSurface.bounds shrunkSurface.dirty [InvCmd.full] = ⟨⟨0,0⟩,⟨2,2⟩⟩ ∧
    ¬ Rect.subsetR shrunkSurface.dirty
        (runInv shrunkSurface.bounds shrunkSurface.dirty [InvCmd.full]) :=
  ⟨by decide, by decide, fun h => absurd (h 5 5 (by decide)) (by decide)⟩

/-- Witness for C3 on a 4×4 surface with dirty `(0,0)-(1,1)`, running
`invalidate((1,1)-(2,2))` and then asking about one more `invalidate()`. -/
theorem invalidate_monotonic_witness :
    (∀ c' ∈ [InvCmd.rect ⟨⟨1,1⟩,⟨2,2⟩⟩],
        Rect.subsetR (Rect.intersect ⟨⟨0,0⟩,⟨4,4⟩⟩ (invRegion ⟨⟨0,0⟩,⟨4,4⟩⟩ c'))
          (runInv ⟨⟨0,0⟩,⟨4,4⟩⟩ ⟨⟨0,0⟩,⟨1,1⟩⟩ [InvCmd.rect ⟨⟨1,1⟩,⟨2,2⟩⟩])) ∧
    ((runInv ⟨⟨0,0⟩,⟨4,4⟩⟩ ⟨⟨0,0⟩,⟨1,1⟩⟩ [InvCmd.rect ⟨⟨1,1⟩,⟨2,2⟩⟩]).valid = true →
      Rect.subsetR (runInv ⟨⟨0,0⟩,⟨4,4⟩⟩ ⟨⟨0,0⟩,⟨1,1⟩⟩ [InvCmd.rect ⟨⟨1,1⟩,⟨2,2⟩⟩])
        (runInv ⟨⟨0,0⟩,⟨4,4⟩⟩ ⟨⟨0,0⟩,⟨1,1⟩⟩
          ([InvCmd.rect ⟨⟨1,1⟩,⟨2,2⟩⟩] ++ [InvCmd.full]))) := by
  have hw : wfDR ⟨⟨0,0⟩,⟨4,4⟩⟩ ⟨⟨0,0⟩,⟨1,1⟩⟩ := by
    intro _ x y hm
    simp only [Rect.memB_iff] at hm ⊢
    omega
  exact invalidate_monotonic ⟨⟨0,0⟩,⟨4,4⟩⟩ ⟨⟨0,0⟩,⟨1,1⟩⟩
    [InvCmd.rect ⟨⟨1,1⟩,⟨2,2⟩⟩] InvCmd.full hw

/-! ## Render scenarios: shared unfolding lemmas -/

/-- `render` at the root (no ancestors), unfolded one step. -/
theorem render_nil (s : SurfaceData) (cs : List STree) :
    render s cs [] =
      (let d1 := foldDirty s.bounds s.dirty cs
       if d1.valid then
         let s2 := if cs.isEmpty then { s with dirty := d1 }
                   else (clearF { s with dirty := d1 } d1).2
         let br := blendAll s2 cs
         ({ br.1 with dirty := Rect.zero }, br.2, [], [(0, br.1.dirty)])
       else ({ s with dirty := d1 }, cs, [], [])) := rfl


/-! ## Claim C2: compositing a 2×2 child into a clean 10×10 root -/


/-- C2: rendering the root composites the child: the buffer afterwards holds
`'b'` exactly at local offsets `(2,2)`–`(3,3)` and the original fill at every
other offset, and `renderDone` receives exactly `Rect(2,2,4,4)`. -/
theorem render_composites_child (orig : Nat → Cell) :
    (∀ x y : Nat, x < 10 → y < 10 →
        (render (c2Root orig) [.node c2Child []] []).1.buf (y * 10 + x) =
          (if 2 ≤ x ∧ x ≤ 3 ∧ 2 ≤ y ∧ y ≤ 3 then c2Cell else orig (y * 10 + x))) ∧
    (render (c2Root orig) [.node c2Child []] []).2.2.2 = [(0, ⟨⟨2,2⟩,⟨4,4⟩⟩)] := by
  constructor
  · have h1 : (render (c2Root orig) [.node c2Child []] []).1.buf =
        ((blendS ((clearF { c2Root orig with dirty := ⟨⟨2,2⟩,⟨4,4⟩⟩ } ⟨⟨2,2⟩,⟨4,4⟩⟩).2)
                 c2Child ⟨⟨0,0⟩,⟨2,2⟩⟩ ⟨2,2⟩).2).buf := rfl
    have hs2b : ((clearF { c2Root orig with dirty := ⟨⟨2,2⟩,⟨4,4⟩⟩ } ⟨⟨2,2⟩,⟨4,4⟩⟩).2).bounds
        = c2RootB := rfl
    have h2 : ∀ i, ((clearF { c2Root orig with dirty := ⟨⟨2,2⟩,⟨4,4⟩⟩ } ⟨⟨2,2⟩,⟨4,4⟩⟩).2).buf i
        = if (⟨⟨2,2⟩,⟨4,4⟩⟩ : Rect).memB (c2RootB.point_for i).x (c2RootB.point_for i).y
          then Cell.blank else orig i := by
      intro i
      simp only [clearF, fillF, c2Root]
      norm_num [Rect.valid, Rect.intersect, c2RootB]
    have h3 : ∀ i, ((blendS ((clearF { c2Root orig with dirty := ⟨⟨2,2⟩,⟨4,4⟩⟩ } ⟨⟨2,2⟩,⟨4,4⟩⟩).2)
                 c2Child ⟨⟨0,0⟩,⟨2,2⟩⟩ ⟨2,2⟩).2).buf i
        = if (⟨⟨2,2⟩,⟨4,4⟩⟩ : Rect).memB (c2RootB.point_for i).x (c2RootB.point_for i).y
          then c2Cell
          else ((clearF { c2Root orig with dirty := ⟨⟨2,2⟩,⟨4,4⟩⟩ } ⟨⟨2,2⟩,⟨4,4⟩⟩).2).buf i := by
      intro i
      simp only [blendS, hs2b]
      norm_num [Rect.valid, Rect.intersect, Rect.move, Rect.widthI, Rect.heightI, c2Child, c2Cell,
        Cell.transparent, c2RootB]
    intro x y hx hy
    rw [h1, h3, h2]
    have hpx : (c2RootB.point_for (y * 10 + x)).x = (x : Int) := by
      simp only [Rect.point_for, c2RootB, Rect.widthI]
      norm_num
      omega
    have hpy : (c2RootB.point_for (y * 10 + x)).y = (y : Int) := by
      simp only [Rect.point_for, c2RootB, Rect.widthI]
      norm_num
      omega
    rw [hpx, hpy]
    by_cases h : 2 ≤ x ∧ x ≤ 3 ∧ 2 ≤ y ∧ y ≤ 3
    · have hmem : Rect.memB ⟨⟨2,2⟩,⟨4,4⟩⟩ (x : Int) (y : Int) = true := by
        simp only [Rect.memB_iff]
        omega
      simp [hmem, h]
    · have hmem : Rect.memB ⟨⟨2,2⟩,⟨4,4⟩⟩ (x : Int) (y : Int) = false := by
        rw [Bool.eq_false_iff]
        intro hc
        rw [Rect.memB_iff] at hc
        push_cast at hc
        omega
      simp [hmem, h]
  · rw [render_nil]
    have hd : (c2Root orig).dirty = ⟨⟨2,2⟩,⟨4,4⟩⟩ := rfl
    have hb : (c2Root orig).bounds = c2RootB := rfl
    simp only [hd, hb]
    have hfold : foldDirty c2RootB ⟨⟨2,2⟩,⟨4,4⟩⟩ [.node c2Child []] = ⟨⟨2,2⟩,⟨4,4⟩⟩ := by decide
    simp only [hfold]
    rfl

/-- Witness for C2 at the constant original fill `'a'`: after the render the
root buffer holds `'b'` at offset 23 = (3,2) and `'a'` at offset 0. -/
theorem render_composites_child_witness :
    (render (c2Root fun _ => ⟨97,7,0,0⟩) [.node c2Child []] []).1.buf 23 = c2Cell ∧
    (render (c2Root fun _ => ⟨97,7,0,0⟩) [.node c2Child []] []).1.buf 0 = ⟨97,7,0,0⟩ := by
  have h1 := (render_composites_child (fun _ => ⟨97,7,0,0⟩)).1 3 2 (by norm_num) (by norm_num)
  have h2 := (render_composites_child (fun _ => ⟨97,7,0,0⟩)).1 0 0 (by norm_num) (by norm_num)
  norm_num at h1 h2
  exact ⟨h1, h2⟩

/-- `render` on a childless node with a single ancestor that has no other
children, unfolded one step (the node's step-1 fold over no children leaves
its dirty region unchanged). -/
theorem render_leaf_one_frame (s pd : SurfaceData) :
    render s [] [⟨pd, [], []⟩] =
      (if s.dirty.valid then
         let pr := render pd [.node s []] []
         let selfOut := pr.2.1.getD 0 defTree
         ({ selfOut.data with dirty := Rect.zero },
          selfOut.children,
          ⟨pr.1, pr.2.1.take 0, pr.2.1.drop 1⟩ :: pr.2.2.1,
          pr.2.2.2 ++ [(1, selfOut.data.dirty)])
       else (s, [], [⟨pd, [], []⟩], [])) := rfl


theorem point_for_ten_x (x y : Nat) (hx : x < 10) :
    ((⟨⟨0,0⟩,⟨10,10⟩⟩ : Rect).point_for (y * 10 + x)).x = (x : Int) := by
  simp only [Rect.point_for, Rect.widthI]
  norm_num
  omega

theorem point_for_ten_y (x y : Nat) (hx : x < 10) :
    ((⟨⟨0,0⟩,⟨10,10⟩⟩ : Rect).point_for (y * 10 + x)).y = (y : Int) := by
  simp only [Rect.point_for, Rect.widthI]
  norm_num
  omega

/-- C5: after moving the attached 2×2 child of a clean 10×10 parent from
`(1,1)` to `(5,5)`, rendering the child redraws both footprints in the
parent's buffer — the vacated `(1,1)`–`(2,2)` cells become blank and the new
`(5,5)`–`(6,6)` cells receive the child's (non-transparent) content — and
the parent's `renderDone` hook receives the bounding union of the old and
new footprints clipped to the parent's bounds (here `(1,1)-(7,7)`). -/
theorem render_after_move (orig cbuf : Nat → Cell) :
    (c5Moved orig cbuf).1 = 0 ∧
    (c5Render orig cbuf).2.2.2 =
      [(0, Rect.intersect (c5Parent orig).bounds
            (Rect.boundingRect (SurfaceData.footprint (c5Child cbuf))
              (SurfaceData.footprint (c5Moved orig cbuf).2.1))),
       (1, Rect.zero)] ∧
    (∀ x y : Nat, x < 10 → y < 10 →
      ((SurfaceData.footprint (c5Child cbuf)).memB (x : Int) (y : Int) = true →
        ((c5Render orig cbuf).2.2.1.headD defFrame).data.buf (y * 10 + x) = Cell.blank) ∧
      ((SurfaceData.footprint (c5Moved orig cbuf).2.1).memB (x : Int) (y : Int) = true →
        ((c5Render orig cbuf).2.2.1.headD defFrame).data.buf (y * 10 + x) =
          (if (cbuf ((y - 5) * 2 + (x - 5))).transparent then Cell.blank
           else cbuf ((y - 5) * 2 + (x - 5))))) := by
  have h0 : c5Render orig cbuf =
      render ⟨⟨⟨0,0⟩,⟨2,2⟩⟩, ⟨⟨0,0⟩,⟨2,2⟩⟩, ⟨5,5⟩, true, cbuf⟩ []
        [⟨⟨⟨⟨0,0⟩,⟨10,10⟩⟩, ⟨⟨1,1⟩,⟨3,3⟩⟩, ⟨0,0⟩, true, orig⟩, [], []⟩] := rfl
  -- parent render components
  have hfoldP : foldDirty ⟨⟨0,0⟩,⟨10,10⟩⟩ ⟨⟨1,1⟩,⟨3,3⟩⟩
      [.node ⟨⟨⟨0,0⟩,⟨2,2⟩⟩, ⟨⟨0,0⟩,⟨2,2⟩⟩, ⟨5,5⟩, true, cbuf⟩ []] = ⟨⟨1,1⟩,⟨7,7⟩⟩ := rfl
  have hprh : (render ⟨⟨⟨0,0⟩,⟨10,10⟩⟩, ⟨⟨1,1⟩,⟨3,3⟩⟩, ⟨0,0⟩, true, orig⟩
      [.node ⟨⟨⟨0,0⟩,⟨2,2⟩⟩, ⟨⟨0,0⟩,⟨2,2⟩⟩, ⟨5,5⟩, true, cbuf⟩ []] []).2.2.2
      = [(0, ⟨⟨1,1⟩,⟨7,7⟩⟩)] := by
    rw [render_nil]
    simp only [hfoldP]
    rfl
  have hprc : (render ⟨⟨⟨0,0⟩,⟨10,10⟩⟩, ⟨⟨1,1⟩,⟨3,3⟩⟩, ⟨0,0⟩, true, orig⟩
      [.node ⟨⟨⟨0,0⟩,⟨2,2⟩⟩, ⟨⟨0,0⟩,⟨2,2⟩⟩, ⟨5,5⟩, true, cbuf⟩ []] []).2.1
      = [.node ⟨⟨⟨0,0⟩,⟨2,2⟩⟩, Rect.zero, ⟨5,5⟩, true, cbuf⟩ []] := by
    rw [render_nil]
    simp only [hfoldP]
    rfl
  -- parent buffer characterization
  have h1 : (render ⟨⟨⟨0,0⟩,⟨10,10⟩⟩, ⟨⟨1,1⟩,⟨3,3⟩⟩, ⟨0,0⟩, true, orig⟩
      [.node ⟨⟨⟨0,0⟩,⟨2,2⟩⟩, ⟨⟨0,0⟩,⟨2,2⟩⟩, ⟨5,5⟩, true, cbuf⟩ []] []).1.buf =
      ((blendS ((clearF ⟨⟨⟨0,0⟩,⟨10,10⟩⟩, ⟨⟨1,1⟩,⟨7,7⟩⟩, ⟨0,0⟩, true, orig⟩ ⟨⟨1,1⟩,⟨7,7⟩⟩).2)
               ⟨⟨⟨0,0⟩,⟨2,2⟩⟩, ⟨⟨0,0⟩,⟨2,2⟩⟩, ⟨5,5⟩, true, cbuf⟩ ⟨⟨0,0⟩,⟨2,2⟩⟩ ⟨5,5⟩).2).buf := rfl
  have hs2b : ((clearF ⟨⟨⟨0,0⟩,⟨10,10⟩⟩, ⟨⟨1,1⟩,⟨7,7⟩⟩, ⟨0,0⟩, true, orig⟩
      ⟨⟨1,1⟩,⟨7,7⟩⟩).2).bounds = ⟨⟨0,0⟩,⟨10,10⟩⟩ := rfl
  have h2 : ∀ i, ((clearF ⟨⟨⟨0,0⟩,⟨10,10⟩⟩, ⟨⟨1,1⟩,⟨7,7⟩⟩, ⟨0,0⟩, true, orig⟩
        ⟨⟨1,1⟩,⟨7,7⟩⟩).2).buf i
      = if (⟨⟨1,1⟩,⟨7,7⟩⟩ : Rect).memB ((⟨⟨0,0⟩,⟨10,10⟩⟩ : Rect).point_for i).x
            ((⟨⟨0,0⟩,⟨10,10⟩⟩ : Rect).point_for i).y
        then Cell.blank else orig i := by
    intro i
    simp only [clearF, fillF]
    norm_num [Rect.valid, Rect.intersect]
  have h3 : ∀ i, ((blendS ((clearF ⟨⟨⟨0,0⟩,⟨10,10⟩⟩, ⟨⟨1,1⟩,⟨7,7⟩⟩, ⟨0,0⟩, true, orig⟩
                    ⟨⟨1,1⟩,⟨7,7⟩⟩).2)
               ⟨⟨⟨0,0⟩,⟨2,2⟩⟩, ⟨⟨0,0⟩,⟨2,2⟩⟩, ⟨5,5⟩, true, cbuf⟩ ⟨⟨0,0⟩,⟨2,2⟩⟩ ⟨5,5⟩).2).buf i
      = if (⟨⟨5,5⟩,⟨7,7⟩⟩ : Rect).memB ((⟨⟨0,0⟩,⟨10,10⟩⟩ : Rect).point_for i).x
            ((⟨⟨0,0⟩,⟨10,10⟩⟩ : Rect).point_for i).y
        then (if (cbuf ((((⟨⟨0,0⟩,⟨10,10⟩⟩ : Rect).point_for i).y - 5) * 2 +
                         (((⟨⟨0,0⟩,⟨10,10⟩⟩ : Rect).point_for i).x - 5)).toNat).transparent
              then ((clearF ⟨⟨⟨0,0⟩,⟨10,10⟩⟩, ⟨⟨1,1⟩,⟨7,7⟩⟩, ⟨0,0⟩, true, orig⟩
                      ⟨⟨1,1⟩,⟨7,7⟩⟩).2).buf i
              else cbuf ((((⟨⟨0,0⟩,⟨10,10⟩⟩ : Rect).point_for i).y - 5) * 2 +
                         (((⟨⟨0,0⟩,⟨10,10⟩⟩ : Rect).point_for i).x - 5)).toNat)
        else ((clearF ⟨⟨⟨0,0⟩,⟨10,10⟩⟩, ⟨⟨1,1⟩,⟨7,7⟩⟩, ⟨0,0⟩, true, orig⟩
                ⟨⟨1,1⟩,⟨7,7⟩⟩).2).buf i := by
    intro i
    simp only [blendS, hs2b]
    norm_num [Rect.valid, Rect.intersect, Rect.move, Rect.widthI, Rect.heightI, Rect.index_for]
  have hval : ((⟨⟨⟨0,0⟩,⟨2,2⟩⟩, ⟨⟨0,0⟩,⟨2,2⟩⟩, ⟨5,5⟩, true, cbuf⟩ : SurfaceData)).dirty.valid
      = true := rfl
  refine ⟨rfl, ?_, ?_⟩
  · rw [h0, render_leaf_one_frame, if_pos hval]
    simp only [hprc, hprh]
    rfl
  · have hbuf : ((c5Render orig cbuf).2.2.1.headD defFrame).data.buf =
        (render ⟨⟨⟨0,0⟩,⟨10,10⟩⟩, ⟨⟨1,1⟩,⟨3,3⟩⟩, ⟨0,0⟩, true, orig⟩
          [.node ⟨⟨⟨0,0⟩,⟨2,2⟩⟩, ⟨⟨0,0⟩,⟨2,2⟩⟩, ⟨5,5⟩, true, cbuf⟩ []] []).1.buf := by
      rw [h0, render_leaf_one_frame, if_pos hval]
      rfl
    have hfp1 : SurfaceData.footprint (c5Child cbuf) = ⟨⟨1,1⟩,⟨3,3⟩⟩ := rfl
    have hfp2 : SurfaceData.footprint (c5Moved orig cbuf).2.1 = ⟨⟨5,5⟩,⟨7,7⟩⟩ := rfl
    intro x y hx hy
    rw [hbuf, hfp1, hfp2, h1]
    rw [h3 (y * 10 + x), h2 (y * 10 + x)]
    rw [point_for_ten_x x y hx, point_for_ten_y x y hx]
    constructor
    · intro hm
      simp only [Rect.memB_iff] at hm
      norm_num at hm
      have hmem5 : Rect.memB ⟨⟨5,5⟩,⟨7,7⟩⟩ (x : Int) (y : Int) = false := by
        rw [Bool.eq_false_iff]
        intro hc
        simp only [Rect.memB_iff] at hc
        norm_num at hc
        omega
      have hmem17 : Rect.memB ⟨⟨1,1⟩,⟨7,7⟩⟩ (x : Int) (y : Int) = true := by
        simp only [Rect.memB_iff]
        norm_num
        omega
      simp [hmem5, hmem17]
    · intro hm
      simp only [Rect.memB_iff] at hm
      norm_num at hm
      have hmem5 : Rect.memB ⟨⟨5,5⟩,⟨7,7⟩⟩ (x : Int) (y : Int) = true := by
        simp only [Rect.memB_iff]
        norm_num
        omega
      have hmem17 : Rect.memB ⟨⟨1,1⟩,⟨7,7⟩⟩ (x : Int) (y : Int) = true := by
        simp only [Rect.memB_iff]
        norm_num
        omega
      have hidx : (((y : Int) - 5) * 2 + ((x : Int) - 5)).toNat = (y - 5) * 2 + (x - 5) := by
        omega
      simp only [hmem5, if_true, hmem17]
      rw [hidx]


/-- Witness for C5 with concrete fills: the vacated cell `(1,1)` (offset 11)
is blank and the new cell `(5,5)` (offset 55) holds the child's glyph. -/
theorem render_after_move_witness :
    ((c5Render (fun _ => ⟨97,7,0,0⟩) (fun _ => ⟨99,7,0,0⟩)).2.2.1.headD defFrame).data.buf 11
      = Cell.blank ∧
    ((c5Render (fun _ => ⟨97,7,0,0⟩) (fun _ => ⟨99,7,0,0⟩)).2.2.1.headD defFrame).data.buf 55
      = ⟨99,7,0,0⟩ := by
  have h1 := ((render_after_move (fun _ => ⟨97,7,0,0⟩) (fun _ => ⟨99,7,0,0⟩)).2.2
      1 1 (by norm_num) (by norm_num)).1 (by decide)
  have h2 := ((render_after_move (fun _ => ⟨97,7,0,0⟩) (fun _ => ⟨99,7,0,0⟩)).2.2
      5 5 (by norm_num) (by norm_num)).2 (by decide)
  norm_num [Cell.transparent] at h1 h2
  exact ⟨h1, h2⟩

/-! ## Structure lemmas about render -/

theorem zero_rect_valid : Rect.valid Rect.zero = false := rfl

theorem valid_boundingRect_left (r x : Rect) (h : r.valid = true) :
    (Rect.boundingRect r x).valid = true := by
  simp only [Rect.valid_iff, Rect.boundingRect] at h ⊢
  omega

theorem invalidateRect_of_invalid (b d r : Rect) (h : d.valid = false) :
    invalidateRect b d r = Rect.intersect b r := by
  unfold invalidateRect
  rw [if_neg]
  simp [h]

theorem invalidateRect_valid_of_valid (b d r : Rect) (h : d.valid = true) :
    (invalidateRect b d r).valid = true := by
  unfold invalidateRect
  rw [if_pos h]
  exact valid_boundingRect_left _ _ h

theorem foldDirty_nil (b d : Rect) : foldDirty b d [] = d := rfl

theorem foldDirty_cons (b d : Rect) (c : STree) (rest : List STree) :
    foldDirty b d (c :: rest) =
      foldDirty b (if c.data.visible && c.data.dirty.valid then
                     invalidateRect b d (c.data.dirty.translate c.data.pos) else d) rest := rfl

/-- Folding children none of which is both visible and dirty leaves the
dirty region untouched. -/
theorem foldDirty_no_guard (b : Rect) :
    ∀ (cs : List STree) (d : Rect),
      (∀ c ∈ cs, c.data.visible = true → c.data.dirty.valid = false) →
      foldDirty b d cs = d := by
  intro cs
  induction cs with
  | nil => intro d _; rfl
  | cons c rest ih =>
      intro d h
      rw [foldDirty_cons]
      have hg : (c.data.visible && c.data.dirty.valid) = false := by
        cases hv : c.data.visible with
        | false => simp
        | true => simp [h c (List.mem_cons_self c rest) hv]
      rw [if_neg (by simp [hg])]
      exact ih d fun c' hc' => h c' (List.mem_cons_of_mem c hc')

/-- Once valid, the accumulated dirty region stays valid along the fold. -/
theorem foldDirty_valid_of_valid (b : Rect) :
    ∀ (cs : List STree) (d : Rect), d.valid = true → (foldDirty b d cs).valid = true := by
  intro cs
  induction cs with
  | nil => exact fun d h => h
  | cons c rest ih =>
      intro d h
      rw [foldDirty_cons]
      split
      · exact ih _ (invalidateRect_valid_of_valid b d _ h)
      · exact ih d h

/-- Starting the fold from two invalid accumulators either produces the same
result or leaves each accumulator untouched. -/
theorem foldDirty_both_invalid (b : Rect) :
    ∀ (cs : List STree) (a1 a2 : Rect), a1.valid = false → a2.valid = false →
      foldDirty b a1 cs = foldDirty b a2 cs ∨
      (foldDirty b a1 cs = a1 ∧ foldDirty b a2 cs = a2) := by
  intro cs
  induction cs with
  | nil => exact fun a1 a2 _ _ => Or.inr ⟨rfl, rfl⟩
  | cons c rest ih =>
      intro a1 a2 h1 h2
      rw [foldDirty_cons, foldDirty_cons]
      by_cases hg : (c.data.visible && c.data.dirty.valid) = true
      · rw [if_pos hg, if_pos hg,
          invalidateRect_of_invalid b a1 _ h1, invalidateRect_of_invalid b a2 _ h2]
        exact Or.inl rfl
      · rw [if_neg hg, if_neg hg]
        exact ih a1 a2 h1 h2

/-- When the fold result is invalid, folding once more from it is a fixed
point: a second `render` recomputes exactly the same (invalid) dirty rect. -/
theorem foldDirty_invalid_fixed (b d : Rect) (cs : List STree)
    (h : (foldDirty b d cs).valid = false) :
    foldDirty b (foldDirty b d cs) cs = foldDirty b d cs := by
  have hd : d.valid = false := by
    cases hdv : d.valid with
    | false => rfl
    | true =>
        have := foldDirty_valid_of_valid b cs d hdv
        rw [h] at this
        exact absurd this (by decide)
  rcases foldDirty_both_invalid b cs (foldDirty b d cs) d h hd with heq | ⟨hfix, _⟩
  · rw [heq]
  · exact hfix

/-- `render` unfolded once for a nonempty ancestor chain. -/
theorem render_cons (s : SurfaceData) (cs : List STree) (f : Frame) (rest : List Frame) :
    render s cs (f :: rest) =
      (let d1 := foldDirty s.bounds s.dirty cs
       if d1.valid then
         let br := renderLocal s cs d1
         let selfT : STree := .node br.1 br.2
         let pr := render f.data (f.before ++ selfT :: f.after) rest
         let selfOut := pr.2.1.getD f.before.length defTree
         ({ selfOut.data with dirty := Rect.zero },
          selfOut.children,
          ⟨pr.1, pr.2.1.take f.before.length, pr.2.1.drop (f.before.length + 1)⟩ :: pr.2.2.1,
          pr.2.2.2 ++ [(rest.length + 1, selfOut.data.dirty)])
       else ({ s with dirty := d1 }, cs, f :: rest, [])) := rfl

/-- With an invalid accumulated dirty region, `render` returns immediately:
only the (still invalid) dirty rect was written, no buffer changed, no hook
ran, no ancestor was visited. -/
theorem render_early (s : SurfaceData) (cs : List STree) (frames : List Frame)
    (hd : (foldDirty s.bounds s.dirty cs).valid = false) :
    render s cs frames = ({ s with dirty := foldDirty s.bounds s.dirty cs }, cs, frames, []) := by
  cases frames with
  | nil => rw [render_nil]; simp [hd]
  | cons f rest => rw [render_cons]; simp [hd]

/-- The children list after the blend loop is a per-child map. -/
theorem blendAll_snd :
    ∀ (cs : List STree) (s : SurfaceData), (blendAll s cs).2 = cs.map clearDirtyIf := by
  intro cs
  induction cs with
  | nil => intro s; rfl
  | cons c rest ih => intro s; simp [blendAll, ih]

theorem renderLocal_snd (s : SurfaceData) (cs : List STree) (d1 : Rect) :
    (renderLocal s cs d1).2 = cs.map clearDirtyIf := by
  unfold renderLocal
  exact blendAll_snd cs _

theorem clearDirtyIf_children (c : STree) : (clearDirtyIf c).children = c.children := by
  unfold clearDirtyIf
  split <;> rfl

theorem getD_append_cons {α : Type} (l1 : List α) (x : α) (l2 : List α) (d : α) :
    (l1 ++ x :: l2).getD l1.length d = x := by
  induction l1 with
  | nil => rfl
  | cons a t ih => simpa using ih

/-- What `render` leaves as the node's children: consumed (mapped by
`clearDirtyIf`) when the accumulated dirty region was valid, untouched
otherwise. -/
theorem render_children_eq :
    ∀ (frames : List Frame) (s : SurfaceData) (cs : List STree),
      (render s cs frames).2.1 =
        (if (foldDirty s.bounds s.dirty cs).valid then cs.map clearDirtyIf else cs) := by
  intro frames
  induction frames with
  | nil =>
      intro s cs
      cases hd : (foldDirty s.bounds s.dirty cs).valid with
      | false => rw [render_early _ _ _ hd]; simp [hd]
      | true =>
          rw [render_nil]
          simp only [hd, if_true]
          exact renderLocal_snd s cs _
  | cons f rest ih =>
      intro s cs
      cases hd : (foldDirty s.bounds s.dirty cs).valid with
      | false => rw [render_early _ _ _ hd]; simp [hd]
      | true =>
          rw [render_cons]
          simp only [hd, if_true]
          generalize hBR : renderLocal s cs (foldDirty s.bounds s.dirty cs) = br
          have h2 : br.2 = cs.map clearDirtyIf := by
            rw [← hBR]
            exact renderLocal_snd s cs _
          rw [ih f.data (f.before ++ STree.node br.1 br.2 :: f.after)]
          by_cases hd2 : (foldDirty f.data.bounds f.data.dirty
              (f.before ++ STree.node br.1 br.2 :: f.after)).valid = true
          · rw [if_pos hd2, List.map_append, List.map_cons]
            have hg := getD_append_cons (f.before.map clearDirtyIf)
              (clearDirtyIf (STree.node br.1 br.2)) (f.after.map clearDirtyIf) defTree
            rw [List.length_map] at hg
            rw [hg, clearDirtyIf_children]
            exact h2
          · rw [if_neg hd2, getD_append_cons]
            exact h2

/-- The node's own dirty region after `render`: cleared when the accumulated
region was valid, otherwise equal to the (invalid) accumulated region. -/
theorem render_dirty_eq (s : SurfaceData) (cs : List STree) (frames : List Frame) :
    (render s cs frames).1.dirty =
      (if (foldDirty s.bounds s.dirty cs).valid then Rect.zero
       else foldDirty s.bounds s.dirty cs) := by
  cases hd : (foldDirty s.bounds s.dirty cs).valid with
  | false => rw [render_early _ _ _ hd]; simp [hd]
  | true =>
      cases frames with
      | nil => rw [render_nil]; simp [hd]
      | cons f rest => rw [render_cons]; simp [hd]

theorem valid_false_iff (r : Rect) :
    r.valid = false ↔ r.bottom.x ≤ r.top.x ∨ r.bottom.y ≤ r.top.y := by
  rw [← Bool.not_eq_true, Rect.valid_iff]
  omega

theorem translate_valid_false (r : Rect) (p : Point) (h : r.valid = false) :
    (r.translate p).valid = false := by
  rw [valid_false_iff] at h ⊢
  simp only [Rect.translate]
  omega

theorem intersect_valid_false_right (x r : Rect) (h : r.valid = false) :
    (Rect.intersect x r).valid = false := by
  rw [valid_false_iff] at h ⊢
  simp only [Rect.intersect]
  omega

/-- A child the blend loop marks consumed is clean afterwards, whenever it
is visible with valid bounds. -/
theorem clearDirtyIf_clean_of_bounds (c0 : STree)
    (hv : (clearDirtyIf c0).data.visible = true)
    (hb : (clearDirtyIf c0).data.bounds.valid = true) :
    (clearDirtyIf c0).data.dirty.valid = false := by
  unfold clearDirtyIf at hv hb ⊢
  by_cases hcond : (c0.data.visible && c0.data.bounds.valid) = true
  · rw [if_pos hcond]
    rfl
  · rw [if_neg hcond] at hv hb
    exact absurd (by rw [hv, hb]; rfl : (c0.data.visible && c0.data.bounds.valid) = true) hcond

/-- Same, under the reachability invariant "valid dirty implies valid
bounds" instead of a bounds hypothesis. -/
theorem clearDirtyIf_clean (c0 : STree)
    (h : c0.data.visible = true → c0.data.dirty.valid = true → c0.data.bounds.valid = true)
    (hv : (clearDirtyIf c0).data.visible = true) :
    (clearDirtyIf c0).data.dirty.valid = false := by
  unfold clearDirtyIf at hv ⊢
  by_cases hcond : (c0.data.visible && c0.data.bounds.valid) = true
  · rw [if_pos hcond]
    rfl
  · rw [if_neg hcond] at hv ⊢
    cases hdv : c0.data.dirty.valid with
    | false => rfl
    | true =>
        exact absurd (by rw [hv, h hv hdv]; rfl :
          (c0.data.visible && c0.data.bounds.valid) = true) hcond

/-! ## Claim C9: render consumes every visible child -/

/-- C9: when `render` runs with a valid accumulated dirty region, every
visible child with valid bounds comes out with an invalid (clean) dirty
region — even one whose placement misses the dirty region or the parent's
bounds entirely; for such a child the compositing step `blendStepS` (run
with the accumulated dirty region, which the blend loop preserves) is the
identity: its pending content is discarded without touching any buffer. -/
theorem render_consumes_children (s : SurfaceData) (cs : List STree) (frames : List Frame)
    (h : (foldDirty s.bounds s.dirty cs).valid = true) :
    (∀ c ∈ (render s cs frames).2.1, c.data.visible = true → c.data.bounds.valid = true →
        c.data.dirty.valid = false) ∧
    (∀ c ∈ cs,
        (Rect.intersect (foldDirty s.bounds s.dirty cs) (c.data.bounds.move c.data.pos)).valid
            = false →
        ∀ t : SurfaceData, t.dirty = foldDirty s.bounds s.dirty cs → blendStepS t c.data = t) := by
  constructor
  · intro c hc hv hb
    rw [render_children_eq, if_pos h] at hc
    obtain ⟨c0, _, rfl⟩ := List.mem_map.mp hc
    exact clearDirtyIf_clean_of_bounds c0 hv hb
  · intro c _ hint t ht
    unfold blendStepS
    by_cases hg : (c.data.visible && c.data.bounds.valid) = true
    · rw [if_pos hg, ht]
      have hs : (Rect.intersect c.data.bounds
          ((Rect.intersect (foldDirty s.bounds s.dirty cs)
              (c.data.bounds.move c.data.pos)).translate
            ⟨-c.data.pos.x, -c.data.pos.y⟩)).valid = false :=
        intersect_valid_false_right _ _ (translate_valid_false _ _ hint)
      simp [blendS, hs]
    · rw [if_neg hg]

/-! ## Claim C4: the dirty-inside-bounds invariant -/


theorem wfS_fillF (s : SurfaceData) (pat : Cell) (crop : Rect) (h : wfS s) :
    wfS (fillF s pat crop).2 := by
  simp only [fillF]
  split
  · split
    · exact wfDR_invalidateRect s.bounds s.dirty _ h
    · exact h
  · exact wfDR_invalidateRect s.bounds s.dirty _ h

theorem wfS_clearF (s : SurfaceData) (crop : Rect) (h : wfS s) : wfS (clearF s crop).2 :=
  wfS_fillF s Cell.blank crop h

theorem wfS_blendS (s other : SurfaceData) (sc : Rect) (pos : Point) (h : wfS s) :
    wfS (blendS s other sc pos).2 := by
  simp only [blendS]
  split
  · exact wfDR_invalidateRect s.bounds s.dirty _ h
  · exact h

theorem wfS_blendStepS (s : SurfaceData) (c : SurfaceData) (h : wfS s) :
    wfS (blendStepS s c) := by
  simp only [blendStepS]
  split
  · exact wfS_blendS _ _ _ _ h
  · exact h

theorem wfS_blendAll :
    ∀ (cs : List STree) (s : SurfaceData), wfS s → wfS (blendAll s cs).1 := by
  intro cs
  induction cs with
  | nil => exact fun s h => h
  | cons c rest ih =>
      intro s h
      exact ih (blendStepS s c.data) (wfS_blendStepS s c.data h)

theorem wfS_renderLocal (s : SurfaceData) (cs : List STree) (d1 : Rect)
    (h : wfDR s.bounds d1) : wfS (renderLocal s cs d1).1 := by
  simp only [renderLocal]
  refine wfS_blendAll cs _ ?_
  split
  · exact h
  · exact wfS_clearF { s with dirty := d1 } d1 h

theorem wfS_clearDirtyIf (c : STree) (h : wfS c.data) : wfS (clearDirtyIf c).data := by
  unfold clearDirtyIf
  split
  · exact wfDR_zero c.data.bounds
  · exact h

theorem foldDirty_wf (b : Rect) :
    ∀ (cs : List STree) (d : Rect), wfDR b d → wfDR b (foldDirty b d cs) := by
  intro cs
  induction cs with
  | nil => exact fun d h => h
  | cons c rest ih =>
      intro d h
      rw [foldDirty_cons]
      split
      · exact ih _ (wfDR_invalidateRect b d _ h)
      · exact ih d h

theorem moveLayerF_keeps_sf (t : LayerTarget) (tid : Nat) (sf : LayerChild) (z : Int) :
    (moveLayerF t tid sf z).2.2 = sf := by
  unfold moveLayerF
  split
  · rfl
  · split <;> rfl

theorem wfT_moveLayerF (t : LayerTarget) (tid : Nat) (sf : LayerChild) (z : Int)
    (h : wfT t) : wfT (moveLayerF t tid sf z).2.1 := by
  unfold moveLayerF
  split
  · exact h
  · split
    · exact wfDR_invalidateRect t.bounds t.dirty _ h
    · exact h

/-- The invariant is preserved across a whole `render` call: by the rendered
node, by its children, and by every ancestor and sibling in the chain. -/
theorem wfS_render :
    ∀ (frames : List Frame) (s : SurfaceData) (cs : List STree),
      wfS s → (∀ c ∈ cs, wfS c.data) →
      (∀ f ∈ frames, wfS f.data ∧ ∀ t ∈ f.before ++ f.after, wfS t.data) →
      wfS (render s cs frames).1 ∧
      (∀ c ∈ (render s cs frames).2.1, wfS c.data) ∧
      (∀ f ∈ (render s cs frames).2.2.1,
        wfS f.data ∧ ∀ t ∈ f.before ++ f.after, wfS t.data) := by
  intro frames
  induction frames with
  | nil =>
      intro s cs hs hcs _
      refine ⟨?_, ?_, ?_⟩
      · cases hd : (foldDirty s.bounds s.dirty cs).valid with
        | false =>
            rw [render_early _ _ _ hd]
            exact foldDirty_wf s.bounds cs s.dirty hs
        | true =>
            have h1 : (render s cs []).1.dirty = Rect.zero := by
              rw [render_dirty_eq, if_pos hd]
            intro hv
            rw [h1] at hv
            exact absurd hv (by decide)
      · rw [render_children_eq]
        split
        · intro c hc
          obtain ⟨c0, hc0, rfl⟩ := List.mem_map.mp hc
          exact wfS_clearDirtyIf c0 (hcs c0 hc0)
        · exact hcs
      · cases hd : (foldDirty s.bounds s.dirty cs).valid with
        | false =>
            rw [render_early _ _ _ hd]
            intro f hf
            exact absurd hf (List.not_mem_nil f)
        | true =>
            rw [render_nil]
            simp only [hd, if_true]
            intro f hf
            exact absurd hf (List.not_mem_nil f)
  | cons f rest ih =>
      intro s cs hs hcs hfr
      cases hd : (foldDirty s.bounds s.dirty cs).valid with
      | false =>
          rw [render_early _ _ _ hd]
          exact ⟨foldDirty_wf s.bounds cs s.dirty hs, hcs, hfr⟩
      | true =>
          have hch : ∀ c ∈ (render s cs (f :: rest)).2.1, wfS c.data := by
            rw [render_children_eq, if_pos hd]
            intro c hc
            obtain ⟨c0, hc0, rfl⟩ := List.mem_map.mp hc
            exact wfS_clearDirtyIf c0 (hcs c0 hc0)
          have hdz : (render s cs (f :: rest)).1.dirty = Rect.zero := by
            rw [render_dirty_eq, if_pos hd]
          refine ⟨?_, hch, ?_⟩
          · intro hv
            rw [hdz] at hv
            exact absurd hv (by decide)
          · rw [render_cons]
            simp only [hd, if_true]
            generalize hBR : renderLocal s cs (foldDirty s.bounds s.dirty cs) = br
            have hbr : wfS br.1 := by
              rw [← hBR]
              exact wfS_renderLocal s cs _ (foldDirty_wf s.bounds cs s.dirty hs)
            have hL : ∀ t ∈ f.before ++ STree.node br.1 br.2 :: f.after, wfS t.data := by
              intro t ht
              rcases List.mem_append.mp ht with h1 | h1
              · exact (hfr f (List.mem_cons_self f rest)).2 t
                  (List.mem_append.mpr (Or.inl h1))
              · rcases List.mem_cons.mp h1 with rfl | h2
                · exact hbr
                · exact (hfr f (List.mem_cons_self f rest)).2 t
                    (List.mem_append.mpr (Or.inr h2))
            have hihm := ih f.data (f.before ++ STree.node br.1 br.2 :: f.after)
              (hfr f (List.mem_cons_self f rest)).1 hL
              (fun g hg => hfr g (List.mem_cons_of_mem f hg))
            intro g hg
            rcases List.mem_cons.mp hg with rfl | h2
            · refine ⟨hihm.1, ?_⟩
              intro t ht
              rcases List.mem_append.mp ht with h1 | h1
              · exact hihm.2.1 t (List.take_subset _ _ h1)
              · exact hihm.2.1 t (List.drop_subset _ _ h1)
            · exact hihm.2.2 g h2

/-- C4 (amended): whenever a surface's dirty region is valid it lies inside
the surface's own local bounds, and this invariant is preserved by every
`Surface` operation — all three `invalidate` overloads, `fill`, `clear`,
`blend`, `move` (both overloads), `moveZ`, `show`, `hide`, `addLayer` (both
overloads), `removeLayer`, `moveLayer` and `render` (for the rendered node,
its children and the whole ancestor chain) — with the one exception of
`resize`, which never resets the previous dirty region and therefore
preserves the invariant only when that region (if valid) fits the new
bounds; a shrinking `resize` of a dirty surface violates it. -/
theorem dirty_within_bounds_invariant :
    (∀ s : SurfaceData, wfS (invalidateFull s)) ∧
    (∀ b d r : Rect, wfDR b d → wfDR b (invalidateRect b d r)) ∧
    (∀ (b d : Rect) (a z : Nat), wfDR b d → wfDR b (invalidateSE b d a z)) ∧
    (∀ (s : SurfaceData) (pat : Cell) (crop : Rect), wfS s → wfS (fillF s pat crop).2) ∧
    (∀ (s : SurfaceData) (crop : Rect), wfS s → wfS (clearF s crop).2) ∧
    (∀ (s other : SurfaceData) (sc : Rect) (pos : Point),
        wfS s → wfS (blendS s other sc pos).2) ∧
    (∀ (s : SurfaceData) (pOpt : Option SurfaceData) (w h : Nat),
        wfDR ⟨⟨0,0⟩,⟨(w : Int),(h : Int)⟩⟩ s.dirty → wfS (resizeF s pOpt w h).2.1) ∧
    (∀ (s p : SurfaceData) (w h : Nat),
        wfS p → wfS (((resizeF s (some p) w h).2.2).getD p)) ∧
    (∀ (s : SurfaceData) (pOpt : Option SurfaceData) (pos : Point),
        wfS s → wfS (moveF s pOpt pos).2.1) ∧
    (∀ (s p : SurfaceData) (pos : Point),
        wfS p → wfS (((moveF s (some p) pos).2.2).getD p)) ∧
    (∀ (sf : LayerChild) (pOpt : Option (Nat × LayerTarget)) (pos : Point) (z : Int),
        wfC sf → wfC (movePZF sf pOpt pos z).2.1) ∧
    (∀ (sf : LayerChild) (tid : Nat) (t : LayerTarget) (pos : Point) (z : Int),
        wfT t → wfT (((movePZF sf (some (tid, t)) pos z).2.2).getD t)) ∧
    (∀ (sf : LayerChild) (pOpt : Option (Nat × LayerTarget)) (z : Int),
        wfC sf → wfC (moveZF sf pOpt z).2.1) ∧
    (∀ (sf : LayerChild) (tid : Nat) (t : LayerTarget) (z : Int),
        wfT t → wfT (((moveZF sf (some (tid, t)) z).2.2).getD t)) ∧
    (∀ s : SurfaceData, wfS (showF s)) ∧
    (∀ (s : SurfaceData) (pOpt : Option SurfaceData),
        wfS s → wfS (hideF s pOpt).1) ∧
    (∀ (s p : SurfaceData), wfS p → wfS (((hideF s (some p)).2).getD p)) ∧
    (∀ (t : LayerTarget) (tid : Nat) (sf : LayerChild) (z : Int),
        wfT t → wfT (addLayerZ t tid sf z).2.1) ∧
    (∀ (t : LayerTarget) (tid : Nat) (sf : LayerChild) (z : Int),
        wfC sf → wfC (addLayerZ t tid sf z).2.2) ∧
    (∀ (t : LayerTarget) (tid : Nat) (sf : LayerChild) (pos : Point) (z : Int),
        wfT t → wfT (addLayerPZ t tid sf pos z).2.1) ∧
    (∀ (t : LayerTarget) (tid : Nat) (sf : LayerChild) (pos : Point) (z : Int),
        wfC sf → wfC (addLayerPZ t tid sf pos z).2.2) ∧
    (∀ (t : LayerTarget) (tid : Nat) (sf : LayerChild),
        wfT t → wfT (removeLayerF t tid sf).2.1) ∧
    (∀ (t : LayerTarget) (tid : Nat) (sf : LayerChild),
        wfC sf → wfC (removeLayerF t tid sf).2.2) ∧
    (∀ (t : LayerTarget) (tid : Nat) (sf : LayerChild) (z : Int),
        wfT t → wfT (moveLayerF t tid sf z).2.1) ∧
    (∀ (s : SurfaceData) (cs : List STree) (frames : List Frame),
        wfS s → (∀ c ∈ cs, wfS c.data) →
        (∀ f ∈ frames, wfS f.data ∧ ∀ t ∈ f.before ++ f.after, wfS t.data) →
        wfS (render s cs frames).1 ∧
        (∀ c ∈ (render s cs frames).2.1, wfS c.data) ∧
        (∀ f ∈ (render s cs frames).2.2.1,
          wfS f.data ∧ ∀ t ∈ f.before ++ f.after, wfS t.data)) := by
  refine ⟨fun s => wfDR_bounds s.bounds,
    fun b d r h => wfDR_invalidateRect b d r h,
    fun b d a z h => wfDR_invalidateRect b d _ h,
    wfS_fillF, wfS_clearF, wfS_blendS,
    fun s pOpt w h hw => wfDR_invalidateRect _ s.dirty _ hw,
    fun s p w h hw => wfDR_invalidateRect p.bounds p.dirty _ hw,
    ?_, fun s p pos hw => wfDR_invalidateRect p.bounds p.dirty _ hw,
    ?_, ?_, ?_, ?_,
    fun s => wfDR_bounds s.bounds,
    ?_, fun s p hw => wfDR_invalidateRect p.bounds p.dirty _ hw,
    ?_, ?_, ?_, ?_, ?_, ?_, wfT_moveLayerF,
    fun s cs frames => wfS_render frames s cs⟩
  · intro s pOpt pos hw
    cases pOpt with
    | none => exact hw
    | some p => exact wfDR_bounds s.bounds
  · intro sf pOpt pos z hw
    cases pOpt with
    | none => exact hw
    | some pt =>
        simp only [movePZF]
        rw [moveLayerF_keeps_sf]
        exact wfDR_bounds sf.bounds
  · intro sf tid t pos z hw
    exact wfT_moveLayerF _ tid _ z (wfDR_invalidateRect t.bounds t.dirty _ hw)
  · intro sf pOpt z hw
    cases pOpt with
    | none => exact hw
    | some pt =>
        simp only [moveZF]
        rw [moveLayerF_keeps_sf]
        exact wfDR_bounds sf.bounds
  · intro sf tid t z hw
    exact wfT_moveLayerF t tid _ z hw
  · intro s pOpt hw
    cases pOpt with
    | none => exact hw
    | some p => exact wfDR_bounds s.bounds
  · intro t tid sf z hw
    unfold addLayerZ
    split
    · exact hw
    · exact wfDR_invalidateRect t.bounds t.dirty _ hw
  · intro t tid sf z hw
    unfold addLayerZ
    split
    · exact hw
    · exact hw
  · intro t tid sf pos z hw
    simp only [addLayerPZ]
    split
    · exact hw
    · exact wfDR_invalidateRect t.bounds t.dirty _ hw
  · intro t tid sf pos z hw
    simp only [addLayerPZ]
    split
    · exact hw
    · exact hw
  · intro t tid sf hw
    unfold removeLayerF
    split
    · exact hw
    · split
      · exact wfDR_invalidateRect t.bounds t.dirty _ hw
      · exact hw
  · intro t tid sf hw
    unfold removeLayerF
    split
    · exact hw
    · split
      · exact hw
      · exact hw


/-- Witness for C4: every operation applied at a concrete well-formed state
(4×4 bounds, dirty `(1,1)-(2,2)`) preserves the invariant; `resize` is
exercised growing to 8×8, where the old dirty region fits the new bounds. -/
theorem dirty_within_bounds_invariant_witness :
    wfS (invalidateFull ⟨⟨⟨0,0⟩,⟨4,4⟩⟩, ⟨⟨1,1⟩,⟨2,2⟩⟩, ⟨0,0⟩, true, fun _ => Cell.blank⟩) ∧
    wfDR ⟨⟨0,0⟩,⟨4,4⟩⟩ (invalidateRect ⟨⟨0,0⟩,⟨4,4⟩⟩ ⟨⟨1,1⟩,⟨2,2⟩⟩ ⟨⟨0,0⟩,⟨3,3⟩⟩) ∧
    wfDR ⟨⟨0,0⟩,⟨4,4⟩⟩ (invalidateSE ⟨⟨0,0⟩,⟨4,4⟩⟩ ⟨⟨1,1⟩,⟨2,2⟩⟩ 1 5) ∧
    wfS (fillF ⟨⟨⟨0,0⟩,⟨4,4⟩⟩, ⟨⟨1,1⟩,⟨2,2⟩⟩, ⟨0,0⟩, true, fun _ => Cell.blank⟩
          Cell.blank ⟨⟨0,0⟩,⟨3,3⟩⟩).2 ∧
    wfS (clearF ⟨⟨⟨0,0⟩,⟨4,4⟩⟩, ⟨⟨1,1⟩,⟨2,2⟩⟩, ⟨0,0⟩, true, fun _ => Cell.blank⟩
          ⟨⟨0,0⟩,⟨3,3⟩⟩).2 ∧
    wfS (blendS ⟨⟨⟨0,0⟩,⟨4,4⟩⟩, ⟨⟨1,1⟩,⟨2,2⟩⟩, ⟨0,0⟩, true, fun _ => Cell.blank⟩
          ⟨⟨⟨0,0⟩,⟨4,4⟩⟩, ⟨⟨1,1⟩,⟨2,2⟩⟩, ⟨0,0⟩, true, fun _ => Cell.blank⟩
          ⟨⟨0,0⟩,⟨3,3⟩⟩ ⟨0,0⟩).2 ∧
    wfS (resizeF ⟨⟨⟨0,0⟩,⟨4,4⟩⟩, ⟨⟨1,1⟩,⟨2,2⟩⟩, ⟨0,0⟩, true, fun _ => Cell.blank⟩
          none 8 8).2.1 ∧
    wfS ((resizeF ⟨⟨⟨0,0⟩,⟨4,4⟩⟩, ⟨⟨1,1⟩,⟨2,2⟩⟩, ⟨0,0⟩, true, fun _ => Cell.blank⟩
          (some ⟨⟨⟨0,0⟩,⟨4,4⟩⟩, ⟨⟨1,1⟩,⟨2,2⟩⟩, ⟨0,0⟩, true, fun _ => Cell.blank⟩) 8 8).2.2.getD
          ⟨⟨⟨0,0⟩,⟨4,4⟩⟩, ⟨⟨1,1⟩,⟨2,2⟩⟩, ⟨0,0⟩, true, fun _ => Cell.blank⟩) ∧
    wfS (moveF ⟨⟨⟨0,0⟩,⟨4,4⟩⟩, ⟨⟨1,1⟩,⟨2,2⟩⟩, ⟨0,0⟩, true, fun _ => Cell.blank⟩
          none ⟨1,1⟩).2.1 ∧
    wfS ((moveF ⟨⟨⟨0,0⟩,⟨4,4⟩⟩, ⟨⟨1,1⟩,⟨2,2⟩⟩, ⟨0,0⟩, true, fun _ => Cell.blank⟩
          (some ⟨⟨⟨0,0⟩,⟨4,4⟩⟩, ⟨⟨1,1⟩,⟨2,2⟩⟩, ⟨0,0⟩, true, fun _ => Cell.blank⟩) ⟨1,1⟩).2.2.getD
          ⟨⟨⟨0,0⟩,⟨4,4⟩⟩, ⟨⟨1,1⟩,⟨2,2⟩⟩, ⟨0,0⟩, true, fun _ => Cell.blank⟩) ∧
    wfC (movePZF ⟨0, ⟨⟨0,0⟩,⟨2,2⟩⟩, ⟨⟨0,0⟩,⟨1,1⟩⟩, ⟨0,0⟩, none⟩ none ⟨1,1⟩ 2).2.1 ∧
    wfT ((movePZF ⟨0, ⟨⟨0,0⟩,⟨2,2⟩⟩, ⟨⟨0,0⟩,⟨1,1⟩⟩, ⟨0,0⟩, none⟩
          (some (1, ⟨⟨⟨0,0⟩,⟨4,4⟩⟩, ⟨⟨1,1⟩,⟨2,2⟩⟩, []⟩)) ⟨1,1⟩ 2).2.2.getD
          ⟨⟨⟨0,0⟩,⟨4,4⟩⟩, ⟨⟨1,1⟩,⟨2,2⟩⟩, []⟩) ∧
    wfC (moveZF ⟨0, ⟨⟨0,0⟩,⟨2,2⟩⟩, ⟨⟨0,0⟩,⟨1,1⟩⟩, ⟨0,0⟩, none⟩ none 2).2.1 ∧
    wfT ((moveZF ⟨0, ⟨⟨0,0⟩,⟨2,2⟩⟩, ⟨⟨0,0⟩,⟨1,1⟩⟩, ⟨0,0⟩, none⟩
          (some (1, ⟨⟨⟨0,0⟩,⟨4,4⟩⟩, ⟨⟨1,1⟩,⟨2,2⟩⟩, []⟩)) 2).2.2.getD
          ⟨⟨⟨0,0⟩,⟨4,4⟩⟩, ⟨⟨1,1⟩,⟨2,2⟩⟩, []⟩) ∧
    wfS (showF ⟨⟨⟨0,0⟩,⟨4,4⟩⟩, ⟨⟨1,1⟩,⟨2,2⟩⟩, ⟨0,0⟩, true, fun _ => Cell.blank⟩) ∧
    wfS (hideF ⟨⟨⟨0,0⟩,⟨4,4⟩⟩, ⟨⟨1,1⟩,⟨2,2⟩⟩, ⟨0,0⟩, true, fun _ => Cell.blank⟩ none).1 ∧
    wfS ((hideF ⟨⟨⟨0,0⟩,⟨4,4⟩⟩, ⟨⟨1,1⟩,⟨2,2⟩⟩, ⟨0,0⟩, true, fun _ => Cell.blank⟩
          (some ⟨⟨⟨0,0⟩,⟨4,4⟩⟩, ⟨⟨1,1⟩,⟨2,2⟩⟩, ⟨0,0⟩, true, fun _ => Cell.blank⟩)).2.getD
          ⟨⟨⟨0,0⟩,⟨4,4⟩⟩, ⟨⟨1,1⟩,⟨2,2⟩⟩, ⟨0,0⟩, true, fun _ => Cell.blank⟩) ∧
    wfT (addLayerZ ⟨⟨⟨0,0⟩,⟨4,4⟩⟩, ⟨⟨1,1⟩,⟨2,2⟩⟩, []⟩ 1
          ⟨0, ⟨⟨0,0⟩,⟨2,2⟩⟩, ⟨⟨0,0⟩,⟨1,1⟩⟩, ⟨0,0⟩, none⟩ 0).2.1 ∧
    wfC (addLayerZ ⟨⟨⟨0,0⟩,⟨4,4⟩⟩, ⟨⟨1,1⟩,⟨2,2⟩⟩, []⟩ 1
          ⟨0, ⟨⟨0,0⟩,⟨2,2⟩⟩, ⟨⟨0,0⟩,⟨1,1⟩⟩, ⟨0,0⟩, none⟩ 0).2.2 ∧
    wfT (addLayerPZ ⟨⟨⟨0,0⟩,⟨4,4⟩⟩, ⟨⟨1,1⟩,⟨2,2⟩⟩, []⟩ 1
          ⟨0, ⟨⟨0,0⟩,⟨2,2⟩⟩, ⟨⟨0,0⟩,⟨1,1⟩⟩, ⟨0,0⟩, none⟩ ⟨1,1⟩ 0).2.1 ∧
    wfC (addLayerPZ ⟨⟨⟨0,0⟩,⟨4,4⟩⟩, ⟨⟨1,1⟩,⟨2,2⟩⟩, []⟩ 1
          ⟨0, ⟨⟨0,0⟩,⟨2,2⟩⟩, ⟨⟨0,0⟩,⟨1,1⟩⟩, ⟨0,0⟩, none⟩ ⟨1,1⟩ 0).2.2 ∧
    wfT (removeLayerF ⟨⟨⟨0,0⟩,⟨4,4⟩⟩, ⟨⟨1,1⟩,⟨2,2⟩⟩, []⟩ 1
          ⟨0, ⟨⟨0,0⟩,⟨2,2⟩⟩, ⟨⟨0,0⟩,⟨1,1⟩⟩, ⟨0,0⟩, none⟩).2.1 ∧
    wfC (removeLayerF ⟨⟨⟨0,0⟩,⟨4,4⟩⟩, ⟨⟨1,1⟩,⟨2,2⟩⟩, []⟩ 1
          ⟨0, ⟨⟨0,0⟩,⟨2,2⟩⟩, ⟨⟨0,0⟩,⟨1,1⟩⟩, ⟨0,0⟩, none⟩).2.2 ∧
    wfT (moveLayerF ⟨⟨⟨0,0⟩,⟨4,4⟩⟩, ⟨⟨1,1⟩,⟨2,2⟩⟩, []⟩ 1
          ⟨0, ⟨⟨0,0⟩,⟨2,2⟩⟩, ⟨⟨0,0⟩,⟨1,1⟩⟩, ⟨0,0⟩, none⟩ 0).2.1 ∧
    wfS (render ⟨⟨⟨0,0⟩,⟨4,4⟩⟩, ⟨⟨1,1⟩,⟨2,2⟩⟩, ⟨0,0⟩, true, fun _ => Cell.blank⟩ [] []).1 := by
  have hwS : wfS (⟨⟨⟨0,0⟩,⟨4,4⟩⟩, ⟨⟨1,1⟩,⟨2,2⟩⟩, ⟨0,0⟩, true,
      fun _ => Cell.blank⟩ : SurfaceData) := by
    intro _ x y hm
    simp only [Rect.memB_iff] at hm ⊢
    omega
  have hwT : wfT (⟨⟨⟨0,0⟩,⟨4,4⟩⟩, ⟨⟨1,1⟩,⟨2,2⟩⟩, []⟩ : LayerTarget) := by
    intro _ x y hm
    simp only [Rect.memB_iff] at hm ⊢
    omega
  have hwC : wfC (⟨0, ⟨⟨0,0⟩,⟨2,2⟩⟩, ⟨⟨0,0⟩,⟨1,1⟩⟩, ⟨0,0⟩, none⟩ : LayerChild) := by
    intro _ x y hm
    simp only [Rect.memB_iff] at hm ⊢
    omega
  have hw8 : wfDR ⟨⟨0,0⟩,⟨((8:Nat):Int),((8:Nat):Int)⟩⟩ (⟨⟨1,1⟩,⟨2,2⟩⟩ : Rect) := by
    intro _ x y hm
    simp only [Rect.memB_iff] at hm ⊢
    norm_num at hm ⊢
    omega
  have hwDR : wfDR (⟨⟨0,0⟩,⟨4,4⟩⟩ : Rect) (⟨⟨1,1⟩,⟨2,2⟩⟩ : Rect) := by
    intro _ x y hm
    simp only [Rect.memB_iff] at hm ⊢
    omega
  obtain ⟨h1, h2, h3, h4, h5, h6, h7, h8, h9, h10, h11, h12, h13, h14, h15, h16, h17,
    h18, h19, h20, h21, h22, h23, h24, h25⟩ := dirty_within_bounds_invariant
  exact ⟨h1 _, h2 _ _ ⟨⟨0,0⟩,⟨3,3⟩⟩ hwDR, h3 _ _ 1 5 hwDR, h4 _ Cell.blank _ hwS,
    h5 _ _ hwS, h6 _ _ _ ⟨0,0⟩ hwS, h7 _ none 8 8 hw8, h8 _ _ 8 8 hwS,
    h9 _ none _ hwS, h10 _ _ _ hwS, h11 _ none _ 2 hwC, h12 _ 1 _ _ 2 hwT,
    h13 _ none 2 hwC, h14 _ 1 _ 2 hwT, h15 _, h16 _ none hwS, h17 _ _ hwS,
    h18 _ 1 _ 0 hwT, h19 _ 1 _ 0 hwC, h20 _ 1 _ _ 0 hwT, h21 _ 1 _ _ 0 hwC,
    h22 _ 1 _ hwT, h23 _ 1 _ hwC, h24 _ 1 _ 0 hwT,
    (h25 _ [] [] hwS (fun c hc => absurd hc (List.not_mem_nil c))
      (fun f hf => absurd hf (List.not_mem_nil f))).1⟩

/-- C4 counterexample: the reachable state  `Surface(10,10)` then
`resize(2,2)` carries a valid dirty region `(0,0)-(10,10)` that is not
contained in the new bounds `(0,0)-(2,2)` — cell `(5,5)` is dirty but out of
bounds — so `resize` does not preserve the invariant. -/
theorem dirty_within_bounds_counterexample :
    wfS (⟨⟨⟨0,0⟩,⟨10,10⟩⟩, ⟨⟨0,0⟩,⟨10,10⟩⟩, ⟨0,0⟩, true, fun _ => Cell.blank⟩ : SurfaceData) ∧
    shrunkSurface.dirty.valid = true ∧
    ¬ Rect.subsetR shrunkSurface.dirty shrunkSurface.bounds :=
  ⟨fun _ x y hm => hm, by decide, fun h => absurd (h 5 5 (by decide)) (by decide)⟩

/-- Witness for C9: a 4×4 surface with dirty `(0,0)-(2,2)` and a visible
dirty 2×2 child placed entirely out of bounds at `(10,10)`.  The accumulated
dirty region is valid, the child's placement misses it, and the compositing
step leaves the surface (dirty region and all) untouched. -/
theorem render_consumes_children_witness :
    blendStepS ⟨⟨⟨0,0⟩,⟨4,4⟩⟩, ⟨⟨0,0⟩,⟨4,4⟩⟩, ⟨0,0⟩, true, fun _ => Cell.blank⟩
        (STree.node ⟨⟨⟨0,0⟩,⟨2,2⟩⟩, ⟨⟨0,0⟩,⟨2,2⟩⟩, ⟨10,10⟩, true, fun _ => Cell.blank⟩ []).data
      = ⟨⟨⟨0,0⟩,⟨4,4⟩⟩, ⟨⟨0,0⟩,⟨4,4⟩⟩, ⟨0,0⟩, true, fun _ => Cell.blank⟩ :=
  (render_consumes_children
      ⟨⟨⟨0,0⟩,⟨4,4⟩⟩, ⟨⟨0,0⟩,⟨2,2⟩⟩, ⟨0,0⟩, true, fun _ => Cell.blank⟩
      [STree.node ⟨⟨⟨0,0⟩,⟨2,2⟩⟩, ⟨⟨0,0⟩,⟨2,2⟩⟩, ⟨10,10⟩, true, fun _ => Cell.blank⟩ []]
      [] (by decide)).2
    (STree.node ⟨⟨⟨0,0⟩,⟨2,2⟩⟩, ⟨⟨0,0⟩,⟨2,2⟩⟩, ⟨10,10⟩, true, fun _ => Cell.blank⟩ [])
    (List.mem_singleton.mpr rfl) (by decide) _ (by decide)

/-! ## Claim C1: render idempotence -/

/-- C1 (amended): provided every visible child carrying a valid dirty region
has valid bounds (which holds for every API-reachable tree except after a
zero-size `resize` of a dirty child), a second `render` immediately after a
first one is a no-op: the surface's dirty region is invalid after the first
call, every visible child is clean when the first call composited (found a
valid accumulated dirty region), and the second call returns the state it
was given, unchanged — no buffer cell is written, the parent chain is not
re-entered and `renderDone` is not invoked (the hook list is empty). -/
theorem render_idempotent (s : SurfaceData) (cs : List STree) (frames : List Frame)
    (hwf : ∀ c ∈ cs, c.data.visible = true → c.data.dirty.valid = true →
        c.data.bounds.valid = true) :
    (render s cs frames).1.dirty.valid = false ∧
    ((foldDirty s.bounds s.dirty cs).valid = true →
      ∀ c ∈ (render s cs frames).2.1, c.data.visible = true → c.data.dirty.valid = false) ∧
    render (render s cs frames).1 (render s cs frames).2.1 (render s cs frames).2.2.1 =
      ((render s cs frames).1, (render s cs frames).2.1, (render s cs frames).2.2.1, []) := by
  cases hd : (foldDirty s.bounds s.dirty cs).valid with
  | false =>
      rw [render_early s cs frames hd]
      refine ⟨hd, ?_, ?_⟩
      · exact fun hc => absurd hc (by simp [hd])
      · have hF2 : foldDirty s.bounds (foldDirty s.bounds s.dirty cs) cs
            = foldDirty s.bounds s.dirty cs := foldDirty_invalid_fixed s.bounds s.dirty cs hd
        have hd2 : (foldDirty ({ s with dirty := foldDirty s.bounds s.dirty cs}).bounds
            ({ s with dirty := foldDirty s.bounds s.dirty cs}).dirty cs).valid = false := by
          show (foldDirty s.bounds (foldDirty s.bounds s.dirty cs) cs).valid = false
          rw [hF2]
          exact hd
        rw [render_early _ _ _ hd2]
        show ({ s with dirty := foldDirty s.bounds (foldDirty s.bounds s.dirty cs) cs},
              cs, frames, ([] : List (Nat × Rect))) = _
        rw [hF2]
  | true =>
      have hdirty : (render s cs frames).1.dirty = Rect.zero := by
        rw [render_dirty_eq, if_pos hd]
      have hcs : (render s cs frames).2.1 = cs.map clearDirtyIf := by
        rw [render_children_eq, if_pos hd]
      have hclean : ∀ c ∈ (render s cs frames).2.1,
          c.data.visible = true → c.data.dirty.valid = false := by
        rw [hcs]
        intro c hc hv
        obtain ⟨c0, hc0, rfl⟩ := List.mem_map.mp hc
        exact clearDirtyIf_clean c0 (hwf c0 hc0) hv
      refine ⟨by rw [hdirty]; rfl, fun _ => hclean, ?_⟩
      have hfold2 : foldDirty (render s cs frames).1.bounds (render s cs frames).1.dirty
          (render s cs frames).2.1 = (render s cs frames).1.dirty :=
        foldDirty_no_guard _ _ _ hclean
      have hv2 : (foldDirty (render s cs frames).1.bounds (render s cs frames).1.dirty
          (render s cs frames).2.1).valid = false := by
        rw [hfold2, hdirty]
        rfl
      rw [render_early _ _ _ hv2, hfold2]

/-- Witness for C1: a childless dirty 4×4 root; the second render is a
no-op returning the state unchanged with no hook invocation. -/
theorem render_idempotent_witness :
    (render ⟨⟨⟨0,0⟩,⟨4,4⟩⟩, ⟨⟨0,0⟩,⟨4,4⟩⟩, ⟨0,0⟩, true, fun _ => Cell.blank⟩ [] []).1.dirty.valid
      = false ∧
    render (render ⟨⟨⟨0,0⟩,⟨4,4⟩⟩, ⟨⟨0,0⟩,⟨4,4⟩⟩, ⟨0,0⟩, true, fun _ => Cell.blank⟩ [] []).1
        (render ⟨⟨⟨0,0⟩,⟨4,4⟩⟩, ⟨⟨0,0⟩,⟨4,4⟩⟩, ⟨0,0⟩, true, fun _ => Cell.blank⟩ [] []).2.1
        (render ⟨⟨⟨0,0⟩,⟨4,4⟩⟩, ⟨⟨0,0⟩,⟨4,4⟩⟩, ⟨0,0⟩, true, fun _ => Cell.blank⟩ [] []).2.2.1 =
      ((render ⟨⟨⟨0,0⟩,⟨4,4⟩⟩, ⟨⟨0,0⟩,⟨4,4⟩⟩, ⟨0,0⟩, true, fun _ => Cell.blank⟩ [] []).1,
       (render ⟨⟨⟨0,0⟩,⟨4,4⟩⟩, ⟨⟨0,0⟩,⟨4,4⟩⟩, ⟨0,0⟩, true, fun _ => Cell.blank⟩ [] []).2.1,
       (render ⟨⟨⟨0,0⟩,⟨4,4⟩⟩, ⟨⟨0,0⟩,⟨4,4⟩⟩, ⟨0,0⟩, true, fun _ => Cell.blank⟩ [] []).2.2.1,
       []) := by
  have h := render_idempotent ⟨⟨⟨0,0⟩,⟨4,4⟩⟩, ⟨⟨0,0⟩,⟨4,4⟩⟩, ⟨0,0⟩, true, fun _ => Cell.blank⟩
    [] [] (fun c hc => absurd hc (List.not_mem_nil c))
  exact ⟨h.1, h.2.2⟩


/-- C1 counterexample: on the post-`resize(0,0)` tree, the second of two
consecutive `render` calls with no intervening mutation still invokes the
`renderDone` hook (emits output), contradicting idempotence as claimed. -/
theorem render_idempotent_counterexample :
    (render
      (render (c1BadResize.2.2.getD defFrame.data) [.node c1BadResize.2.1 []] []).1
      (render (c1BadResize.2.2.getD defFrame.data) [.node c1BadResize.2.1 []] []).2.1
      (render (c1BadResize.2.2.getD defFrame.data) [.node c1BadResize.2.1 []] []).2.2.1).2.2.2
      ≠ [] := by decide

end Conutils
